import Mathlib

/-!
# Verification of the shift-scheduling engine (`src/lib/shiftScheduler.ts`)

Shallow embedding of the scheduling engine.  Conventions of the embedding:

* Calendar dates are modelled as natural numbers (days since an epoch Sunday),
  so `getDay()` is `d % 7` with `0 = sunday, …, 6 = saturday`.  ISO date
  strings (`toISOString().split("T")[0]`) are in bijection with days, so the
  `date` field of an assignment is the same day number; string equality and
  lexicographic comparison of ISO dates coincide with the numeric ones, and the
  environment is assumed to be UTC so that local-time and UTC accessors agree.
* Clock times `"HH:MM"` are modelled as hour/minute pairs; for well-formed
  zero-padded times, lexicographic string comparison coincides with
  lexicographic comparison of the pairs, and `parseInt` of the first component
  is the hour.
* Shift durations are tracked in minutes (`Nat`), which is exact; the source's
  floating-point hours are these values divided by 60, and all the source does
  with them is add and compare, which the minute representation models exactly.
* JavaScript objects used as string-keyed maps are association lists with
  first-match lookup; `Array.prototype.sort` (stable) is a stable insertion
  sort; `localeCompare` on names is modelled as code-point order.
* The conflict strings pushed by the engine come from five fixed templates;
  they are modelled by an inductive type with one constructor per template, so
  that the final `new Set` deduplication is deduplication of these values.
-/

/-- Association-list lookup, modelling JavaScript `obj[key]` (first match). -/
def alGet {κ α : Type} [BEq κ] (m : List (κ × α)) (k : κ) : Option α :=
  (m.find? (fun p => p.1 == k)).map (·.2)

/-- Association-list update, modelling JavaScript `obj[key] = v`. -/
def alSet {κ α : Type} [BEq κ] : List (κ × α) → κ → α → List (κ × α)
  | [], k, v => [(k, v)]
  | p :: rest, k, v => if p.1 == k then (k, v) :: rest else p :: alSet rest k v

/-- Read-modify-write on an association list with a default for missing keys,
modelling `obj[key] = f(obj[key] || dflt)`. -/
def alUpd {κ α : Type} [BEq κ] (m : List (κ × α)) (k : κ) (dflt : α) (f : α → α) :
    List (κ × α) :=
  alSet m k (f ((alGet m k).getD dflt))

/-- First-occurrence deduplication, modelling `Array.from(new Set(xs))`. -/
def dedupAux {α : Type} [BEq α] : List α → List α → List α
  | [], _ => []
  | x :: xs, seen => if seen.contains x then dedupAux xs seen else x :: dedupAux xs (x :: seen)

/-- `Array.from(new Set(xs))`: keep the first occurrence of each element. -/
def dedup {α : Type} [BEq α] (l : List α) : List α := dedupAux l []

/-- Insert an element into a sorted list, after every element it is not
strictly less than.  Building block of the stable sort. -/
def insertSorted {α : Type} (lt : α → α → Bool) (x : α) : List α → List α
  | [] => [x]
  | y :: ys => if lt x y then x :: y :: ys else y :: insertSorted lt x ys

/-- Stable sort by a strict comparator, modelling the (stable)
`Array.prototype.sort` with comparator `c` where `lt a b ↔ c(a,b) < 0`. -/
def stableSort {α : Type} (lt : α → α → Bool) (l : List α) : List α :=
  l.foldl (fun acc x => insertSorted lt x acc) []

/-- ASCII whitespace test (the shift names the engine trims use ASCII). -/
def isWs (c : Char) : Bool := c == ' ' || c == '\t' || c == '\n' || c == '\r'

/-- `String.prototype.trim`, over the character list. -/
def strTrim (s : String) : String :=
  ⟨((s.data.dropWhile isWs).reverse.dropWhile isWs).reverse⟩

/-- `String.prototype.startsWith`, over the character lists. -/
def strStartsWith (s pre : String) : Bool := pre.data.isPrefixOf s.data

/-- Lexicographic code-point order on character lists. -/
def listLt : List Char → List Char → Bool
  | [], [] => false
  | [], _ :: _ => true
  | _ :: _, [] => false
  | a :: as, b :: bs =>
    if a.toNat < b.toNat then true
    else if b.toNat < a.toNat then false
    else listLt as bs

/-- Code-point order on strings (the model of `localeCompare` and `<`). -/
def strLt (a b : String) : Bool := listLt a.data b.data

/-- A clock time `"HH:MM"` as an hour/minute pair. -/
structure HM where
  h : Nat
  m : Nat
deriving DecidableEq, Repr

/-- Lexicographic comparison of clock times, modelling `"HH:MM" < "HH:MM"`
string comparison on well-formed zero-padded times. -/
def hmLt (a b : HM) : Bool :=
  decide (a.h < b.h) || (a.h == b.h && decide (a.m < b.m))

/-- `Employee` (fields read by the engine). -/
structure Employee where
  id : String
  firstName : String
  lastName : String
  employeeType : String
  lehrjahr : Option Nat
  teamId : String
  specificShiftPercentage : Option Nat
  allowedShifts : List String
  shiftSuitability : List (String × Nat)
  availability : List (String × Bool)
deriving DecidableEq, Repr

/-- `Team` (fields read by the engine). -/
structure Team where
  id : String
  overallShiftPercentage : Nat
deriving DecidableEq, Repr

/-- `ShiftType` (fields read by the engine). -/
structure ShiftType where
  id : String
  name : String
  startTime : HM
  endTime : HM
  weeklyNeeds : List (String × Nat)
deriving DecidableEq, Repr

/-- `ShiftRule`.  `toShiftIds` models `rule.toShiftIds || []` (a missing field
and an empty array behave identically everywhere the engine reads it) and
`sameDay` models the truthiness test on the optional boolean. -/
structure ShiftRule where
  type : String
  fromShiftId : String
  toShiftId : Option String
  toShiftIds : List String
  sameDay : Bool
deriving DecidableEq, Repr

/-- `Absence`: inclusive date range for an employee. -/
structure Absence where
  employeeId : String
  startDate : Nat
  endDate : Nat
deriving DecidableEq, Repr

/-- `ShiftAssignment`; `isFollowUp` models the truthiness of the optional flag. -/
structure ShiftAssignment where
  employeeId : String
  shiftId : String
  date : Nat
  locked : Bool
  isFollowUp : Bool
deriving DecidableEq, Repr

/-- The five conflict-string templates of the engine, with the interpolated
values.  Equality of these values models equality of the produced strings. -/
inductive ConflictMsg where
  | followUpNotAllowed (shiftName firstName lastName : String) (date : Nat)
  | followUpNotAvailable (firstName lastName shiftName : String) (date : Nat)
  | zeroPairBlocked (date : Nat)
  | vmPairBlocked (date : Nat)
  | noPersonAvailable (shiftName : String) (date : Nat)
deriving DecidableEq, Repr

/-- Per-employee `WorkloadStats`; `hours` is kept in minutes (exact). -/
structure WorkloadStats where
  hours : Nat
  shifts : Nat
  targetPercentage : Nat
  daysWorked : List Nat
deriving DecidableEq, Repr

/-- `ScheduleOptions` (the engine ignores `learningYearQualifications`, which
is therefore omitted). -/
structure ScheduleOptions where
  startDate : Nat
  endDate : Nat
  employees : List Employee
  teams : List Team
  shiftTypes : List ShiftType
  shiftRules : List ShiftRule
  absences : List Absence
  existingAssignments : List ShiftAssignment
deriving Repr

/-- The scheduler's mutable per-run state. -/
structure SchedState where
  assignments : List ShiftAssignment
  conflicts : List ConflictMsg
  employeeWorkloads : List (String × WorkloadStats)
  teamWorkloads : List (String × Nat)
  vmAssignmentsByDate : List (Nat × List String)
  apprenticeShiftCounts : List (Nat × List (String × List (String × Nat)))
  apprenticeIndices : List (Nat × Nat)
deriving DecidableEq, Repr

/-- `statistics` of a `ScheduleResult`. -/
structure ScheduleStatistics where
  totalAssignments : Nat
  unassignedShifts : Nat
  employeeWorkloads : List (String × WorkloadStats)
  teamWorkloads : List (String × Nat)
deriving DecidableEq, Repr

/-- `ScheduleResult`. -/
structure ScheduleResult where
  assignments : List ShiftAssignment
  conflicts : List ConflictMsg
  statistics : ScheduleStatistics
deriving DecidableEq, Repr

/-- `WEEKDAY_MAPPING` indexed by `getDay()`. -/
def WEEKDAY_MAPPING : List String :=
  ["sunday", "monday", "tuesday", "wednesday", "thursday", "friday", "saturday"]

/-- `getWeekdayName`: the weekday name for Monday–Friday, `none` on weekends. -/
def getWeekdayName (d : Nat) : Option String :=
  let nm := WEEKDAY_MAPPING.getD (d % 7) ""
  if ["monday", "tuesday", "wednesday", "thursday", "friday"].contains nm then some nm
  else none

/-- `calculateShiftDuration`, in minutes (the source divides by 60 at the end;
minutes are the exact representation of those float hours). -/
def calculateShiftDuration (st : ShiftType) : Nat :=
  let s := st.startTime.h * 60 + st.startTime.m
  let e := st.endTime.h * 60 + st.endTime.m
  if e < s then e + 24 * 60 - s else e - s

/-- `shiftType.weeklyNeeds[weekday] ?? 0`. -/
def needsOf (st : ShiftType) (wd : String) : Nat :=
  (alGet st.weeklyNeeds wd).getD 0

/-- `employee.availability[key] !== true` fails unless the key maps to `true`. -/
def availGet (e : Employee) (key : String) : Bool :=
  (alGet e.availability key).getD false

/-- `isEmployeeAvailable`: absence check, weekday check, AM/PM half-day flags,
and the overnight spill-over into the next morning. -/
def isEmployeeAvailable (opts : ScheduleOptions) (e : Employee) (d : Nat)
    (st : ShiftType) : Bool :=
  if opts.absences.any (fun a =>
      a.employeeId == e.id && decide (a.startDate ≤ d) && decide (d ≤ a.endDate)) then
    false
  else
    match getWeekdayName d with
    | none => false
    | some wd =>
      let sh := st.startTime.h
      let eh := st.endTime.h
      if decide (sh < 12) && !(availGet e (wd ++ "_AM")) then false
      else if (decide (12 ≤ eh) || (decide (12 ≤ sh) && decide (sh < 24))) &&
          !(availGet e (wd ++ "_PM")) then false
      else if hmLt st.endTime st.startTime then
        match getWeekdayName (d + 1) with
        | some nwd =>
          if decide (0 < eh) && decide (eh < 12) && !(availGet e (nwd ++ "_AM")) then false
          else true
        | none => true
      else true

/-- The repeated "already has a primary assignment on this date" test. -/
def hasPrimaryOn (l : List ShiftAssignment) (eid : String) (d : Nat) : Bool :=
  l.any (fun a => a.employeeId == eid && decide (a.date = d) && !a.isFollowUp)

/-- `violatesForbiddenSequence`: scans the rules and the employee's existing
assignments in both temporal directions. -/
def violatesForbiddenSequence (opts : ScheduleOptions)
    (assignments : List ShiftAssignment) (e : Employee) (d : Nat)
    (st : ShiftType) : Bool :=
  opts.shiftRules.any (fun r =>
    r.type == "forbidden_sequence" &&
    assignments.any (fun a =>
      a.employeeId == e.id &&
      (let diff : Int := (d : Int) - (a.date : Int)
       ((a.shiftId == r.fromShiftId && r.toShiftIds.contains st.id &&
         ((r.sameDay && decide (diff = 0)) || (!r.sameDay && decide (diff = 1)))) ||
        (st.id == r.fromShiftId && r.toShiftIds.contains a.shiftId &&
         ((r.sameDay && decide (diff = 0)) || (!r.sameDay && decide (diff = -1))))))))

/-- `this.shiftMap[id]`: the map is built left to right, so later shift types
with the same id overwrite earlier ones. -/
def shiftMapGet (opts : ScheduleOptions) (k : String) : Option ShiftType :=
  opts.shiftTypes.reverse.find? (fun st => st.id == k)

/-- `options.shiftTypes.find(st => st.id === k)` (first match). -/
def findShift (opts : ScheduleOptions) (k : String) : Option ShiftType :=
  opts.shiftTypes.find? (fun st => st.id == k)

/-- `shiftTypes.find(s => s.name === "0.")?.id`. -/
def zeroShiftId (opts : ScheduleOptions) : Option String :=
  (opts.shiftTypes.find? (fun st => st.name == "0.")).map (·.id)

/-- `shiftTypes.find(s => s.name === "1. VM")?.id`. -/
def firstVmShiftId (opts : ScheduleOptions) : Option String :=
  (opts.shiftTypes.find? (fun st => st.name == "1. VM")).map (·.id)

/-- Append a conflict string. -/
def pushConflict (s : SchedState) (c : ConflictMsg) : SchedState :=
  { s with conflicts := s.conflicts ++ [c] }

/-- The decision the mandatory-follow-up loop body takes for one rule.
`skip` is a non-applicable rule (wrong kind, dangling target, first-year
exception); `conflict` is a blocked rule that pushes a conflict string
(target not allowed / employee unavailable); `blocked` is a blocked rule
without a conflict (already assigned, or demand already met). -/
inductive MfuAction where
  | skip
  | conflict (c : ConflictMsg)
  | blocked
  | push (toShift : ShiftType) (fdate : Nat)
deriving DecidableEq, Repr

/-- The follow-up shift's demand on the follow-up date's weekday (`?? 0`). -/
def mfuDemand (toShift : ShiftType) (fdate : Nat) : Nat :=
  match getWeekdayName fdate with
  | some wd => needsOf toShift wd
  | none => 0

/-- How many assignments already cover (follow-up date, follow-up shift). -/
def countOn (assignments : List ShiftAssignment) (toShift : ShiftType)
    (fdate : Nat) : Nat :=
  (assignments.filter (fun a =>
    decide (a.date = fdate) && a.shiftId == toShift.id)).length

/-- The guard chain of the `mandatory_follow_up` loop body from the target
shift and follow-up date onwards: permitted on the target shift, available on
the follow-up date, not already assigned there, and demand not yet met. -/
def mfuDecideAt (opts : ScheduleOptions) (e : Employee) (fdate : Nat)
    (toShift : ShiftType) (assignments : List ShiftAssignment) : MfuAction :=
  if !(e.allowedShifts.contains toShift.id) then
    .conflict (.followUpNotAllowed toShift.name e.firstName e.lastName fdate)
  else if !(isEmployeeAvailable opts e fdate toShift) then
    .conflict (.followUpNotAvailable e.firstName e.lastName toShift.name fdate)
  else if hasPrimaryOn assignments e.id fdate ||
      assignments.any (fun a =>
        a.employeeId == e.id && decide (a.date = fdate) && a.shiftId == toShift.id) then
    .blocked
  else if decide (mfuDemand toShift fdate ≤ countOn assignments toShift fdate) then
    .blocked
  else .push toShift fdate

/-- The guard chain of one iteration of the `mandatory_follow_up` loop, shared
verbatim by `canApplyMandatoryFollowUps` and `applyMandatoryFollowUps`: which
action the body takes for rule `r` given the current assignment list. -/
def mfuDecide (opts : ScheduleOptions) (e : Employee) (d : Nat) (st : ShiftType)
    (assignments : List ShiftAssignment) (r : ShiftRule) : MfuAction :=
  if !(r.type == "mandatory_follow_up" && r.fromShiftId == st.id) then .skip
  else
    match shiftMapGet opts (r.toShiftId.getD "") with
    | none => .skip
    | some toShift =>
      let fromName : Option String := (shiftMapGet opts r.fromShiftId).map (·.name)
      if (e.lehrjahr == some 1) && r.sameDay &&
          ((fromName == some "2A. VM" && toShift.name == "2B. NM") ||
           (fromName == some "2B. VM" && toShift.name == "2A. NM")) then .skip
      else mfuDecideAt opts e (if r.sameDay then d else d + 1) toShift assignments

/-- Commit a follow-up assignment and update the workload counters
(the mutation block at the end of the `applyMandatoryFollowUps` loop body). -/
def mfuCommit (e : Employee) (s : SchedState) (toShift : ShiftType) (fdate : Nat) :
    SchedState :=
  let asg : ShiftAssignment :=
    { employeeId := e.id, shiftId := toShift.id, date := fdate,
      locked := false, isFollowUp := true }
  let dur := calculateShiftDuration toShift
  let newEmpW := alUpd s.employeeWorkloads e.id
    { hours := 0, shifts := 0, targetPercentage := 0, daysWorked := [] }
    (fun w =>
      { hours := w.hours + dur, shifts := w.shifts + 1,
        targetPercentage := w.targetPercentage,
        daysWorked := w.daysWorked ++ [fdate] })
  let newCounts :=
    match e.lehrjahr with
    | some y =>
      if e.employeeType == "azubi" then
        match alGet s.apprenticeShiftCounts y with
        | some perShift =>
          match alGet perShift toShift.id with
          | some perEmp =>
            alSet s.apprenticeShiftCounts y
              (alSet perShift toShift.id (alUpd perEmp e.id 0 (· + 1)))
          | none => s.apprenticeShiftCounts
        | none => s.apprenticeShiftCounts
      else s.apprenticeShiftCounts
    | none => s.apprenticeShiftCounts
  { s with
    assignments := s.assignments ++ [asg],
    teamWorkloads := alUpd s.teamWorkloads e.teamId 0 (· + 1),
    employeeWorkloads := newEmpW,
    apprenticeShiftCounts := newCounts }

/-- One iteration of the `applyMandatoryFollowUps` loop body. -/
def mfuStep (opts : ScheduleOptions) (e : Employee) (d : Nat) (st : ShiftType)
    (s : SchedState) (r : ShiftRule) : SchedState :=
  match mfuDecide opts e d st s.assignments r with
  | .skip => s
  | .conflict c => pushConflict s c
  | .blocked => s
  | .push toShift fdate => mfuCommit e s toShift fdate

/-- `applyMandatoryFollowUps`. -/
def applyMandatoryFollowUps (opts : ScheduleOptions) (e : Employee) (d : Nat)
    (st : ShiftType) (s : SchedState) : SchedState :=
  opts.shiftRules.foldl (mfuStep opts e d st) s

/-- The loop of `canApplyMandatoryFollowUps`: returns `false` at the first
rule whose guards block (pushing the same conflict string the apply-loop
would push, where applicable); non-applicable rules and rules whose guards all
pass do not block. -/
def canApplyMFUGo (opts : ScheduleOptions) (e : Employee) (d : Nat)
    (st : ShiftType) : List ShiftRule → SchedState → Bool × SchedState
  | [], s => (true, s)
  | r :: rs, s =>
    match mfuDecide opts e d st s.assignments r with
    | .skip => canApplyMFUGo opts e d st rs s
    | .conflict c => (false, pushConflict s c)
    | .blocked => (false, s)
    | .push _ _ => canApplyMFUGo opts e d st rs s

/-- `canApplyMandatoryFollowUps`. -/
def canApplyMandatoryFollowUps (opts : ScheduleOptions) (s : SchedState)
    (e : Employee) (d : Nat) (st : ShiftType) : Bool × SchedState :=
  canApplyMFUGo opts e d st opts.shiftRules s

/-- `canAssign`: allowed, available, not yet primarily assigned today, no
forbidden sequence, and the mandatory follow-ups could all be applied.  The
returned state carries the conflict strings pushed by the follow-up check. -/
def canAssign (opts : ScheduleOptions) (s : SchedState) (e : Employee) (d : Nat)
    (st : ShiftType) : Bool × SchedState :=
  if !(e.allowedShifts.contains st.id) then (false, s)
  else if !(isEmployeeAvailable opts e d st) then (false, s)
  else if hasPrimaryOn s.assignments e.id d then (false, s)
  else if violatesForbiddenSequence opts s.assignments e d st then (false, s)
  else canApplyMandatoryFollowUps opts s e d st

/-- The days of the scheduling range (`while (current <= end)`). -/
def daysInRange (opts : ScheduleOptions) : List Nat :=
  (List.range (opts.endDate + 1 - opts.startDate)).map (opts.startDate + ·)

/-- `initializeTeamTargets`' count of demand units over the whole range. -/
def totalSlots (opts : ScheduleOptions) : Nat :=
  (daysInRange opts).foldl
    (fun acc d =>
      match getWeekdayName d with
      | some wd => acc + opts.shiftTypes.foldl (fun a st => a + needsOf st wd) 0
      | none => acc)
    0

/-- `Math.round(x)` for `x = p*T/100` with `p T : Nat`: half rounds up. -/
def jsRoundPct (p T : Nat) : Nat := (2 * p * T + 100) / 200

/-- `initializeTeamTargets`' per-team target slot counts. -/
def teamTargets (opts : ScheduleOptions) : List (String × Nat) :=
  opts.teams.map (fun t => (t.id, jsRoundPct t.overallShiftPercentage (totalSlots opts)))

/-- `initializeApprentices`: apprentices grouped by `lehrjahr` (groups in
first-encounter order), each group sorted by id. -/
def apprenticesByYear (opts : ScheduleOptions) : List (Nat × List Employee) :=
  let raw := opts.employees.foldl
    (fun m e =>
      match e.lehrjahr with
      | some y => if e.employeeType == "azubi" then alUpd m y [] (· ++ [e]) else m
      | none => m)
    []
  raw.map (fun p => (p.1, stableSort (fun a b => strLt a.id b.id) p.2))

/-- `initializeApprentices`' zeroed per-(year, shift, apprentice) counters. -/
def apprInitCounts (opts : ScheduleOptions) :
    List (Nat × List (String × List (String × Nat))) :=
  (apprenticesByYear opts).map (fun p =>
    (p.1, opts.shiftTypes.map (fun st => (st.id, p.2.map (fun e => (e.id, 0))))))

/-- Increment `apprenticeShiftCounts[y]?.[sid][eid]`, guarded on the outer two
levels existing (the `?.` chain) and defaulting the innermost to 0. -/
def bumpCount (counts : List (Nat × List (String × List (String × Nat))))
    (y : Nat) (sid eid : String) :
    List (Nat × List (String × List (String × Nat))) :=
  match alGet counts y with
  | none => counts
  | some perShift =>
    match alGet perShift sid with
    | none => counts
    | some perEmp => alSet counts y (alSet perShift sid (alUpd perEmp eid 0 (· + 1)))

/-- A fresh `WorkloadStats` record. -/
def emptyWorkload (tp : Nat) : WorkloadStats :=
  { hours := 0, shifts := 0, targetPercentage := tp, daysWorked := [] }

/-- The constructor plus `initializeWorkloads`: copy the existing assignments,
zero all counters, then seed the counters from the existing assignments. -/
def initState (opts : ScheduleOptions) : SchedState :=
  let baseW := opts.employees.foldl
    (fun m e =>
      let tp := e.specificShiftPercentage.getD
        (match opts.teams.find? (fun t => t.id == e.teamId) with
         | some t => t.overallShiftPercentage
         | none => 100)
      alSet m e.id (emptyWorkload tp))
    []
  let seeded := opts.existingAssignments.foldl
    (fun (acc : List (String × WorkloadStats) × List (String × Nat) ×
          List (Nat × List (String × List (String × Nat)))) a =>
      let (w, tw, cnts) := acc
      if (alGet w a.employeeId).isSome then
        match findShift opts a.shiftId with
        | some st =>
          let dur := calculateShiftDuration st
          let w' := alUpd w a.employeeId (emptyWorkload 0) (fun wl =>
            { hours := wl.hours + dur, shifts := wl.shifts + 1,
              targetPercentage := wl.targetPercentage,
              daysWorked := wl.daysWorked ++ [a.date] })
          match opts.employees.find? (fun e => e.id == a.employeeId) with
          | some emp =>
            let tw' := alUpd tw emp.teamId 0 (· + 1)
            let cnts' :=
              match emp.lehrjahr with
              | some y =>
                if emp.employeeType == "azubi" then bumpCount cnts y a.shiftId emp.id
                else cnts
              | none => cnts
            (w', tw', cnts')
          | none => (w', tw, cnts)
        | none => acc
      else acc)
    (baseW, opts.teams.map (fun t => (t.id, 0)), apprInitCounts opts)
  { assignments := opts.existingAssignments,
    conflicts := [],
    employeeWorkloads := seeded.1,
    teamWorkloads := seeded.2.1,
    vmAssignmentsByDate := [],
    apprenticeShiftCounts := seeded.2.2,
    apprenticeIndices := (apprenticesByYear opts).map (fun p => (p.1, 0)) }

/-- `createAssignment` (primary commits; the source's `isFollowUp` parameter is
only ever used with its default `false`). -/
def createAssignment (_opts : ScheduleOptions) (s : SchedState) (e : Employee)
    (st : ShiftType) (d : Nat) : SchedState :=
  let asg : ShiftAssignment :=
    { employeeId := e.id, shiftId := st.id, date := d,
      locked := false, isFollowUp := false }
  let dur := calculateShiftDuration st
  let newEmpW := alUpd s.employeeWorkloads e.id (emptyWorkload 0)
    (fun w =>
      { hours := w.hours + dur, shifts := w.shifts + 1,
        targetPercentage := w.targetPercentage,
        daysWorked := w.daysWorked ++ [d] })
  let newCounts :=
    match e.lehrjahr with
    | some y =>
      if e.employeeType == "azubi" then bumpCount s.apprenticeShiftCounts y st.id e.id
      else s.apprenticeShiftCounts
    | none => s.apprenticeShiftCounts
  { s with
    assignments := s.assignments ++ [asg],
    teamWorkloads := alUpd s.teamWorkloads e.teamId 0 (· + 1),
    employeeWorkloads := newEmpW,
    apprenticeShiftCounts := newCounts }

/-- The team fill-ratio comparison of `selectCandidate`'s comparator:
`workload/target` compared exactly (cross-multiplied), with teams whose target
is not positive (or unknown) ranked as `+Infinity`. -/
def teamRatioOrd (opts : ScheduleOptions) (s : SchedState) (a b : Employee) :
    Ordering :=
  let ta := (alGet (teamTargets opts) a.teamId).getD 0
  let tb := (alGet (teamTargets opts) b.teamId).getD 0
  let wa := (alGet s.teamWorkloads a.teamId).getD 0
  let wb := (alGet s.teamWorkloads b.teamId).getD 0
  match decide (0 < ta), decide (0 < tb) with
  | true, true => compare (wa * tb) (wb * ta)
  | true, false => .lt
  | false, true => .gt
  | false, false => .eq

/-- `selectCandidate`'s three-key comparator: team fill-ratio ascending, then
accumulated hours ascending, then suitability for this shift descending. -/
def cmpEmp (opts : ScheduleOptions) (s : SchedState) (st : ShiftType)
    (a b : Employee) : Ordering :=
  match teamRatioOrd opts s a b with
  | .lt => .lt
  | .gt => .gt
  | .eq =>
    let ha := ((alGet s.employeeWorkloads a.id).getD (emptyWorkload 0)).hours
    let hb := ((alGet s.employeeWorkloads b.id).getD (emptyWorkload 0)).hours
    match compare ha hb with
    | .lt => .lt
    | .gt => .gt
    | .eq =>
      let sa := (alGet a.shiftSuitability st.id).getD 0
      let sb := (alGet b.shiftSuitability st.id).getD 0
      compare sb sa

/-- The sorted candidate list of `selectCandidate`. -/
def rankedEmployees (opts : ScheduleOptions) (s : SchedState) (st : ShiftType) :
    List Employee :=
  stableSort (fun a b => cmpEmp opts s st a b == Ordering.lt) opts.employees

/-- The apprentice-fairness test of `selectCandidate`: members of a
multi-apprentice cohort are preferred only while their usage count for this
shift-type is the cohort minimum. -/
def isPreferred (opts : ScheduleOptions) (s : SchedState) (st : ShiftType)
    (e : Employee) : Bool :=
  match e.lehrjahr with
  | some y =>
    if e.employeeType == "azubi" &&
        decide (1 < ((alGet (apprenticesByYear opts) y).getD []).length) then
      match alGet s.apprenticeShiftCounts y with
      | some perShift =>
        match alGet perShift st.id with
        | some perEmp =>
          match perEmp.map (·.2) with
          | [] => false
          | v :: vs => ((alGet perEmp e.id).getD 0) == vs.foldl Nat.min v
        | none => true
      | none => true
    else true
  | none => true

/-- The candidate loop of `selectCandidate`: first employee passing
`canAssign`, threading the conflict strings `canAssign` may push. -/
def selGo (opts : ScheduleOptions) (d : Nat) (st : ShiftType) :
    List Employee → SchedState → Option Employee × SchedState
  | [], s => (none, s)
  | e :: rest, s =>
    let p := canAssign opts s e d st
    if p.1 then (some e, p.2) else selGo opts d st rest p.2

/-- `selectCandidate`: rank by the three-key comparator, move multi-cohort
apprentices not at their cohort minimum behind everyone else, then take the
first employee passing `canAssign`. -/
def selectCandidate (opts : ScheduleOptions) (s : SchedState) (d : Nat)
    (st : ShiftType) : Option Employee × SchedState :=
  let ranked := rankedEmployees opts s st
  let pr := ranked.partition (isPreferred opts s st)
  selGo opts d st (pr.1 ++ pr.2) s

/-- `selectAnyCandidate`: first allowed, available, not-already-primarily-
assigned employee, ignoring ranking, forbidden sequences and follow-ups. -/
def selectAnyCandidate (opts : ScheduleOptions) (s : SchedState) (d : Nat)
    (st : ShiftType) : Option Employee :=
  opts.employees.find? (fun e =>
    e.allowedShifts.contains st.id &&
    isEmployeeAvailable opts e d st &&
    !(hasPrimaryOn s.assignments e.id d))

/-- The scan of `vmAssignmentsByDate[dateStr]` in the `"0."` special case:
find the first listed employee that `canAssign` accepts and remove it from
the list (`splice`), threading conflicts pushed by `canAssign`. -/
def zeroScan (opts : ScheduleOptions) (d : Nat) (st : ShiftType) :
    List String → List String → SchedState →
    Option Employee × List String × SchedState
  | [], acc, s => (none, acc, s)
  | eid :: rest, acc, s =>
    match opts.employees.find? (fun e => e.id == eid) with
    | none => zeroScan opts d st rest (acc ++ [eid]) s
    | some emp =>
      let p := canAssign opts s emp d st
      if p.1 then (some emp, acc ++ rest, p.2)
      else zeroScan opts d st rest (acc ++ [eid]) p.2

/-- The `"0."` special case: prefer a same-date `"1. VM"` holder; if holders
exist but none passes `canAssign`, record the pairing conflict. -/
def zeroPath (opts : ScheduleOptions) (s : SchedState) (d : Nat)
    (st : ShiftType) : Option Employee × SchedState :=
  match alGet s.vmAssignmentsByDate d with
  | none => (none, s)
  | some list =>
    match zeroScan opts d st list [] s with
    | (some emp, newList, s1) =>
      (some emp, { s1 with vmAssignmentsByDate := alSet s1.vmAssignmentsByDate d newList })
    | (none, _, s1) =>
      (none, if list.isEmpty then s1 else pushConflict s1 (.zeroPairBlocked d))

/-- The `"1. VM"` special case: prefer the employee already holding the
same-date primary `"0."` assignment; record the pairing conflict if that
employee fails `canAssign`. -/
def vmReversePath (opts : ScheduleOptions) (s : SchedState) (d : Nat)
    (st : ShiftType) (z : String) : Option Employee × SchedState :=
  match s.assignments.find? (fun a =>
      decide (a.date = d) && a.shiftId == z && !a.isFollowUp) with
  | none => (none, s)
  | some za =>
    match opts.employees.find? (fun e => e.id == za.employeeId) with
    | none => (none, s)
    | some emp =>
      let p := canAssign opts s emp d st
      if p.1 then (some emp, p.2) else (none, pushConflict p.2 (.vmPairBlocked d))

/-- Ranked selection followed by the unranked fallback. -/
def pickSel (opts : ScheduleOptions) (s : SchedState) (d : Nat)
    (st : ShiftType) : Option Employee × SchedState :=
  match selectCandidate opts s d st with
  | (some e, s3) => (some e, s3)
  | (none, s3) => (selectAnyCandidate opts s3 d st, s3)

/-- The `"1. VM"` special case, then ranked selection / fallback.  The
guard `firstVmShiftId && zeroShiftId && st.id === firstVmShiftId` requires
both designated ids to exist and be truthy (non-empty). -/
def pickVm (opts : ScheduleOptions) (s : SchedState) (d : Nat)
    (st : ShiftType) : Option Employee × SchedState :=
  let q2 := match firstVmShiftId opts, zeroShiftId opts with
    | some v, some z =>
      if !(v == "") && !(z == "") && st.id == v then vmReversePath opts s d st z
      else (none, s)
    | _, _ => (none, s)
  match q2 with
  | (some e, s2) => (some e, s2)
  | (none, s2) => pickSel opts s2 d st

/-- The employee-picking phase of one slot-fill attempt: the two paired-shift
special cases, then ranked selection, then the unranked fallback. -/
def pickEmployee (opts : ScheduleOptions) (s : SchedState) (d : Nat)
    (st : ShiftType) : Option Employee × SchedState :=
  let q1 := match zeroShiftId opts with
    | some z => if !(z == "") && st.id == z then zeroPath opts s d st else (none, s)
    | none => (none, s)
  match q1 with
  | (some e, s1) => (some e, s1)
  | (none, s1) => pickVm opts s1 d st

/-- A successful slot fill: commit, remember `"1. VM"` holders for the `"0."`
pairing, and propagate mandatory follow-ups. -/
def commitAndFollow (opts : ScheduleOptions) (s : SchedState) (e : Employee)
    (d : Nat) (st : ShiftType) : SchedState :=
  let s1 := createAssignment opts s e st d
  let s2 :=
    if firstVmShiftId opts == some st.id then
      { s1 with vmAssignmentsByDate := alUpd s1.vmAssignmentsByDate d [] (· ++ [e.id]) }
    else s1
  applyMandatoryFollowUps opts e d st s2

/-- The slot loop (`while (assignedCount < need)`), with the remaining demand
as fuel; a failed pick pushes the unfilled-slot conflict and abandons the
remaining demand (`break`). -/
def fillSlots (opts : ScheduleOptions) (d : Nat) (st : ShiftType) :
    Nat → SchedState → SchedState
  | 0, s => s
  | Nat.succ n, s =>
    match pickEmployee opts s d st with
    | (some e, s1) => fillSlots opts d st n (commitAndFollow opts s1 e d st)
    | (none, s1) => pushConflict s1 (.noPersonAvailable st.name d)

/-- One (day, shift-type) demand resolution: fill the still-uncovered demand. -/
def fillShift (opts : ScheduleOptions) (d : Nat) (wd : String) (s : SchedState)
    (st : ShiftType) : SchedState :=
  let need := needsOf st wd
  let assigned := (s.assignments.filter (fun a =>
    decide (a.date = d) && a.shiftId == st.id)).length
  fillSlots opts d st (need - assigned) s

/-- One day of one priority group. -/
def processDay (opts : ScheduleOptions) (g : List ShiftType) (s : SchedState)
    (d : Nat) : SchedState :=
  match getWeekdayName d with
  | none => s
  | some wd => g.foldl (fillShift opts d wd) s

/-- One priority group over the week's scheduling days. -/
def processGroup (opts : ScheduleOptions) (weekDays : List Nat) (s : SchedState)
    (g : List ShiftType) : SchedState :=
  weekDays.foldl (processDay opts g) s

/-- The partition loop of `getPriorityGroups`, appending each shift-type to
its name-prefix group. -/
def groupStep (t : List ShiftType × List ShiftType × List ShiftType × List ShiftType)
    (st : ShiftType) :
    List ShiftType × List ShiftType × List ShiftType × List ShiftType :=
  let name := strTrim st.name
  if strStartsWith name "3" || strStartsWith name "4" then
    (t.1 ++ [st], t.2.1, t.2.2.1, t.2.2.2)
  else if strStartsWith name "2" then
    (t.1, t.2.1 ++ [st], t.2.2.1, t.2.2.2)
  else if strStartsWith name "0" || strStartsWith name "1" then
    (t.1, t.2.1, t.2.2.1 ++ [st], t.2.2.2)
  else
    (t.1, t.2.1, t.2.2.1, t.2.2.2 ++ [st])

/-- The comparator sorting the `"0"`/`"1"` group: `"1. VM"` first, `"0."`
last, the rest by name (`localeCompare` modelled as code-point order). -/
def lt01 (a b : ShiftType) : Bool :=
  if a.name == "1. VM" then true
  else if b.name == "1. VM" then false
  else if a.name == "0." then false
  else if b.name == "0." then true
  else strLt a.name b.name

/-- `getPriorityGroups`. -/
def getPriorityGroups (opts : ScheduleOptions) : List (List ShiftType) :=
  let t := opts.shiftTypes.foldl groupStep ([], [], [], [])
  [t.1, t.2.1, stableSort lt01 t.2.2.1, t.2.2.2]

/-- `rotateApprentices`: advance each multi-member cohort's rotation index. -/
def rotateApprentices (opts : ScheduleOptions) (s : SchedState) : SchedState :=
  { s with
    apprenticeIndices := (apprenticesByYear opts).foldl
      (fun idxs p =>
        if decide (1 < p.2.length) then alUpd idxs p.1 0 (fun i => (i + 1) % p.2.length)
        else idxs)
      s.apprenticeIndices }

/-- The scheduling days of the week starting at `w`, clipped to the range end. -/
def weekDaysOf (opts : ScheduleOptions) (w : Nat) : List Nat :=
  ((List.range 7).map (w + ·)).filter
    (fun d => decide (d ≤ opts.endDate) && (getWeekdayName d).isSome)

/-- One week: the priority groups in order, each over the week's days. -/
def processWeek (opts : ScheduleOptions) (s : SchedState) (w : Nat) : SchedState :=
  (getPriorityGroups opts).foldl (processGroup opts (weekDaysOf opts w)) s

/-- The Monday-stepped week starts of the range (`weekStart += 7`). -/
def weekStarts (opts : ScheduleOptions) : List Nat :=
  if opts.startDate ≤ opts.endDate then
    (List.range ((opts.endDate - opts.startDate) / 7 + 1)).map
      (fun i => opts.startDate + 7 * i)
  else []

/-- The week loop: rotation advances before every week except the first. -/
def runWeeks (opts : ScheduleOptions) (s : SchedState) : SchedState :=
  match weekStarts opts with
  | [] => s
  | w :: ws =>
    ws.foldl (fun s w => processWeek opts (rotateApprentices opts s) w)
      (processWeek opts s w)

/-- `schedule()`: run the week loop from the seeded state and package the
result; conflicts are deduplicated for both the list and the statistic. -/
def schedule (opts : ScheduleOptions) : ScheduleResult :=
  let sF := runWeeks opts (initState opts)
  { assignments := sF.assignments,
    conflicts := dedup sF.conflicts,
    statistics :=
      { totalAssignments := sF.assignments.length,
        unassignedShifts := (dedup sF.conflicts).length,
        employeeWorkloads := sF.employeeWorkloads,
        teamWorkloads := sF.teamWorkloads } }

/-- Availability map with every weekday half-day set to `true`. -/
def fullAvail : List (String × Bool) :=
  [("monday_AM", true), ("monday_PM", true), ("tuesday_AM", true),
   ("tuesday_PM", true), ("wednesday_AM", true), ("wednesday_PM", true),
   ("thursday_AM", true), ("thursday_PM", true), ("friday_AM", true),
   ("friday_PM", true)]

/-- A fully qualified employee allowed on the given shifts. -/
def mkEmp (i : String) (allowed : List String) : Employee :=
  { id := i, firstName := "E", lastName := i, employeeType := "ausgelernt",
    lehrjahr := none, teamId := "t", specificShiftPercentage := none,
    allowedShifts := allowed, shiftSuitability := [], availability := fullAvail }

/-- A morning shift type. -/
def mkShift (i nm : String) (needs : List (String × Nat)) : ShiftType :=
  { id := i, name := nm, startTime := ⟨8, 0⟩, endTime := ⟨12, 0⟩,
    weeklyNeeds := needs }

def shiftA3 : ShiftType := mkShift "a" "3A" [("monday", 1)]

def shiftB3 : ShiftType := mkShift "b" "3B" [("tuesday", 1)]

/-- Forbidden next-day sequence from `3A` to `3B`. -/
def ruleFS : ShiftRule :=
  { type := "forbidden_sequence", fromShiftId := "a", toShiftId := none,
    toShiftIds := ["b"], sameDay := false }

/-- C1 run: one employee, `3A` needed Monday, `3B` needed Tuesday, and a
next-day forbidden sequence `3A → 3B`.  Day 8 is a Monday. -/
def c1Opts : ScheduleOptions :=
  { startDate := 8, endDate := 9, employees := [mkEmp "e1" ["a", "b"]],
    teams := [⟨"t", 100⟩], shiftTypes := [shiftA3, shiftB3],
    shiftRules := [ruleFS], absences := [], existingAssignments := [] }

def shiftV : ShiftType := mkShift "v" "1. VM" [("monday", 1)]

def shiftZ : ShiftType := mkShift "z" "0." [("monday", 1)]

/-- C3 run: two interchangeable employees, the `"1. VM"` and `"0."` shifts
each needed once on Monday (day 8), no rules, no absences. -/
def c3Opts : ScheduleOptions :=
  { startDate := 8, endDate := 8,
    employees := [mkEmp "e1" ["v", "z"], mkEmp "e2" ["v", "z"]],
    teams := [⟨"t", 100⟩], shiftTypes := [shiftV, shiftZ],
    shiftRules := [], absences := [], existingAssignments := [] }

def shiftAlpha : ShiftType := mkShift "s5" "Alpha" [("monday", 2)]

/-- C5 run: demand 2 on Monday (day 8) and no employees at all. -/
def c5Opts : ScheduleOptions :=
  { startDate := 8, endDate := 8, employees := [], teams := [],
    shiftTypes := [shiftAlpha], shiftRules := [], absences := [],
    existingAssignments := [] }


/-- An overnight shift 22:00–00:30 (ends in hour 0 of the next day). -/
def shiftNight : ShiftType :=
  { id := "n", name := "Night", startTime := ⟨22, 0⟩, endTime := ⟨0, 30⟩,
    weeklyNeeds := [("monday", 1)] }

/-- Employee available Monday but *not* Tuesday morning. -/
def c6Emp : Employee :=
  { id := "e6", firstName := "E", lastName := "Six", employeeType := "ausgelernt",
    lehrjahr := none, teamId := "t", specificShiftPercentage := none,
    allowedShifts := ["n"], shiftSuitability := [],
    availability := [("monday_AM", true), ("monday_PM", true)] }

/-- C6 context: no absences. -/
def c6Opts : ScheduleOptions :=
  { startDate := 8, endDate := 8, employees := [c6Emp], teams := [],
    shiftTypes := [shiftNight], shiftRules := [], absences := [],
    existingAssignments := [] }

def shiftC8 : ShiftType := mkShift "c" "C" [("monday", 1)]

/-- First-year apprentice. -/
def mkAzubi (i : String) : Employee :=
  { id := i, firstName := "A", lastName := i, employeeType := "azubi",
    lehrjahr := some 1, teamId := "t", specificShiftPercentage := none,
    allowedShifts := ["c"], shiftSuitability := [], availability := fullAvail }

/-- C8 context: two first-year apprentices in one cohort. -/
def c8Opts : ScheduleOptions :=
  { startDate := 8, endDate := 8, employees := [mkAzubi "a1", mkAzubi "a2"],
    teams := [⟨"t", 100⟩], shiftTypes := [shiftC8], shiftRules := [],
    absences := [], existingAssignments := [] }

/-- C8 state: `a1` has fewer hours (so ranks first) but a higher usage count
for shift `c` than the cohort minimum. -/
def c8State : SchedState :=
  { assignments := [], conflicts := [],
    employeeWorkloads :=
      [("a1", emptyWorkload 100),
       ("a2", { hours := 600, shifts := 1, targetPercentage := 100, daysWorked := [] })],
    teamWorkloads := [("t", 0)],
    vmAssignmentsByDate := [],
    apprenticeShiftCounts := [(1, [("c", [("a1", 1), ("a2", 0)])])],
    apprenticeIndices := [(1, 0)] }

def shiftZeta : ShiftType := mkShift "sz" "Zeta" []

def shiftAlpha9 : ShiftType := mkShift "sa" "Alpha" []

/-- C9 context: two shift-types in the catch-all group, supplied in
non-alphabetical order. -/
def c9Opts : ScheduleOptions :=
  { startDate := 8, endDate := 8, employees := [], teams := [],
    shiftTypes := [shiftZeta, shiftAlpha9], shiftRules := [], absences := [],
    existingAssignments := [] }

def shiftFA : ShiftType := mkShift "fa" "FA" [("monday", 1)]

def shiftFB : ShiftType := mkShift "fb" "FB" [("tuesday", 1)]

/-- Next-day mandatory follow-up from `FA` to `FB`. -/
def ruleMFU : ShiftRule :=
  { type := "mandatory_follow_up", fromShiftId := "fa", toShiftId := some "fb",
    toShiftIds := [], sameDay := false }

/-- C4 context. -/
def c4Opts : ScheduleOptions :=
  { startDate := 8, endDate := 9, employees := [mkEmp "e1" ["fa", "fb"]],
    teams := [⟨"t", 100⟩], shiftTypes := [shiftFA, shiftFB],
    shiftRules := [ruleMFU], absences := [], existingAssignments := [] }

/-- C4 state: `e1` holds the triggering `FA` primary on Monday (day 8). -/
def c4State : SchedState :=
  { assignments := [{ employeeId := "e1", shiftId := "fa", date := 8,
                      locked := false, isFollowUp := false }],
    conflicts := [],
    employeeWorkloads := [("e1", emptyWorkload 100)],
    teamWorkloads := [("t", 1)],
    vmAssignmentsByDate := [],
    apprenticeShiftCounts := [],
    apprenticeIndices := [] }

/-- A pre-existing (locked) assignment used by the C10 witness run. -/
def c10Existing : ShiftAssignment :=
  { employeeId := "e9", shiftId := "x", date := 7, locked := true,
    isFollowUp := false }

/-- C10/C2/C7 witness run: one existing assignment and one Monday slot. -/
def c10Opts : ScheduleOptions :=
  { startDate := 8, endDate := 8, employees := [mkEmp "e1" ["a"]],
    teams := [⟨"t", 100⟩], shiftTypes := [mkShift "a" "3A" [("monday", 1)]],
    shiftRules := [], absences := [], existingAssignments := [c10Existing] }


/-- The trigger condition of a `forbidden_sequence` rule on a committed pair,
as stated by the spec: same employee, `a1` on the rule's from-shift, `a2` on
one of its to-shifts, with day offset 0 (same-day rules) or 1 (next-day). -/
def forbiddenPairViolation (opts : ScheduleOptions)
    (l : List ShiftAssignment) : Prop :=
  ∃ r ∈ opts.shiftRules, r.type = "forbidden_sequence" ∧
    ∃ a1 ∈ l, ∃ a2 ∈ l, a1.employeeId = a2.employeeId ∧
      a1.shiftId = r.fromShiftId ∧ a2.shiftId ∈ r.toShiftIds ∧
      ((r.sameDay = true ∧ (a2.date : Int) - (a1.date : Int) = 0) ∨
       (r.sameDay = false ∧ (a2.date : Int) - (a1.date : Int) = 1))

/-- The display name of the shift-type with a given id (first match). -/
def shiftNameOf (opts : ScheduleOptions) (sid : String) : Option String :=
  (opts.shiftTypes.find? (fun st => st.id == sid)).map (·.name)

/-- Two assignments form the designated `"0."` / `"1. VM"` pair. -/
def pairedNames (opts : ScheduleOptions) (a b : ShiftAssignment) : Prop :=
  (shiftNameOf opts a.shiftId = some "0." ∧ shiftNameOf opts b.shiftId = some "1. VM") ∨
  (shiftNameOf opts a.shiftId = some "1. VM" ∧ shiftNameOf opts b.shiftId = some "0.")

/-- No double-booking: no two primary assignments share an employee and a
date, except the designated `"0."`/`"1. VM"` pair. -/
def NoDoubleBooking (opts : ScheduleOptions) (l : List ShiftAssignment) : Prop :=
  l.Pairwise (fun a b =>
    a.isFollowUp = false → b.isFollowUp = false →
    a.employeeId = b.employeeId → a.date = b.date → pairedNames opts a b)

/-- The availability fact recorded by C7 for a committed assignment: some
employee with this id, and some shift-type with this id, such that the
employee was available for that shift on the assignment's date. -/
def AvailWitness (opts : ScheduleOptions) (a : ShiftAssignment) : Prop :=
  ∃ e ∈ opts.employees, e.id = a.employeeId ∧
    ∃ st ∈ opts.shiftTypes, st.id = a.shiftId ∧
      isEmployeeAvailable opts e a.date st = true

/-- No two follow-up assignments share employee, date and shift. -/
def NoFollowUpDup (l : List ShiftAssignment) : Prop :=
  l.Pairwise (fun a b =>
    a.isFollowUp = true → b.isFollowUp = true →
    a.employeeId = b.employeeId → a.date = b.date → a.shiftId = b.shiftId → False)

/-- C6's claimed characterisation of `isEmployeeAvailable`, word for word:
no covering absence, a scheduling weekday, the AM flag when the shift starts
before 12:00, the PM flag when it ends at/after 12:00 or starts at/after
12:00, and for an overnight shift whose end hour falls before noon and whose
next day is a weekday, the next weekday's AM flag. -/
def isEmployeeAvailableSpec (opts : ScheduleOptions) (e : Employee) (d : Nat)
    (st : ShiftType) : Prop :=
  (¬ ∃ ab ∈ opts.absences, ab.employeeId = e.id ∧ ab.startDate ≤ d ∧ d ≤ ab.endDate) ∧
  (getWeekdayName d).isSome = true ∧
  (st.startTime.h < 12 → availGet e ((getWeekdayName d).getD "" ++ "_AM") = true) ∧
  ((12 ≤ st.endTime.h ∨ 12 ≤ st.startTime.h) →
    availGet e ((getWeekdayName d).getD "" ++ "_PM") = true) ∧
  (hmLt st.endTime st.startTime = true → st.endTime.h < 12 →
    (getWeekdayName (d + 1)).isSome = true →
    availGet e ((getWeekdayName (d + 1)).getD "" ++ "_AM") = true)

/-- The amended characterisation: as `isEmployeeAvailableSpec`, but the
overnight next-morning requirement applies only when the end hour is at
least 1 (a shift ending inside the midnight hour does not require the next
morning). -/
def isEmployeeAvailableAmended (opts : ScheduleOptions) (e : Employee) (d : Nat)
    (st : ShiftType) : Prop :=
  (¬ ∃ ab ∈ opts.absences, ab.employeeId = e.id ∧ ab.startDate ≤ d ∧ d ≤ ab.endDate) ∧
  (getWeekdayName d).isSome = true ∧
  (st.startTime.h < 12 → availGet e ((getWeekdayName d).getD "" ++ "_AM") = true) ∧
  ((12 ≤ st.endTime.h ∨ 12 ≤ st.startTime.h) →
    availGet e ((getWeekdayName d).getD "" ++ "_PM") = true) ∧
  (hmLt st.endTime st.startTime = true → 1 ≤ st.endTime.h → st.endTime.h < 12 →
    (getWeekdayName (d + 1)).isSome = true →
    availGet e ((getWeekdayName (d + 1)).getD "" ++ "_AM") = true)

/-- Name-prefix predicate of the first priority group (`"3"`/`"4"`). -/
def p34 (st : ShiftType) : Bool :=
  strStartsWith (strTrim st.name) "3" || strStartsWith (strTrim st.name) "4"

/-- Name-prefix predicate of the second priority group (`"2"`). -/
def p2 (st : ShiftType) : Bool :=
  !(p34 st) && strStartsWith (strTrim st.name) "2"

/-- Name-prefix predicate of the third priority group (`"0"`/`"1"`). -/
def p01 (st : ShiftType) : Bool :=
  !(p34 st) && !(strStartsWith (strTrim st.name) "2") &&
  (strStartsWith (strTrim st.name) "0" || strStartsWith (strTrim st.name) "1")

/-- Catch-all predicate of the last priority group. -/
def pOther (st : ShiftType) : Bool :=
  !(p34 st) && !(strStartsWith (strTrim st.name) "2") &&
  !(strStartsWith (strTrim st.name) "0" || strStartsWith (strTrim st.name) "1")

/-- Alphabetical order on shift-type names, as claimed for the last group. -/
def alphaByName (l : List ShiftType) : List ShiftType :=
  stableSort (fun a b => strLt a.name b.name) l

/-- C8's claimed selection: the first employee in the three-key sorted order
that passes all eligibility checks. -/
def claimCandidateFirst (opts : ScheduleOptions) (s : SchedState) (d : Nat)
    (st : ShiftType) : Option Employee :=
  (rankedEmployees opts s st).find? (fun e => (canAssign opts s e d st).1)

instance (opts : ScheduleOptions) (l : List ShiftAssignment) :
    Decidable (forbiddenPairViolation opts l) := by
  unfold forbiddenPairViolation
  infer_instance

instance (opts : ScheduleOptions) (a b : ShiftAssignment) :
    Decidable (pairedNames opts a b) := by
  unfold pairedNames
  infer_instance

instance (opts : ScheduleOptions) (l : List ShiftAssignment) :
    Decidable (NoDoubleBooking opts l) := by
  unfold NoDoubleBooking
  infer_instance

instance (opts : ScheduleOptions) (a : ShiftAssignment) :
    Decidable (AvailWitness opts a) := by
  unfold AvailWitness
  infer_instance

instance (l : List ShiftAssignment) : Decidable (NoFollowUpDup l) := by
  unfold NoFollowUpDup
  infer_instance

instance (opts : ScheduleOptions) (e : Employee) (d : Nat) (st : ShiftType) :
    Decidable (isEmployeeAvailableSpec opts e d st) := by
  unfold isEmployeeAvailableSpec
  infer_instance

instance (opts : ScheduleOptions) (e : Employee) (d : Nat) (st : ShiftType) :
    Decidable (isEmployeeAvailableAmended opts e d st) := by
  unfold isEmployeeAvailableAmended
  infer_instance

/-! ## Generic list lemmas -/

theorem mem_insertSorted {α : Type} {lt : α → α → Bool} {x a : α}
    {l : List α} : a ∈ insertSorted lt x l ↔ a = x ∨ a ∈ l := by
  induction l with
  | nil => simp [insertSorted]
  | cons y ys ih =>
    simp only [insertSorted]
    split
    · simp only [List.mem_cons]
    · simp only [List.mem_cons, ih]
      tauto

theorem mem_foldl_insert {α : Type} {lt : α → α → Bool} {a : α} :
    ∀ (l acc : List α),
      a ∈ l.foldl (fun acc x => insertSorted lt x acc) acc ↔ a ∈ acc ∨ a ∈ l := by
  intro l
  induction l with
  | nil => intro acc; simp
  | cons y ys ih =>
    intro acc
    simp only [List.foldl_cons, ih, mem_insertSorted, List.mem_cons]
    tauto

theorem mem_stableSort {α : Type} {lt : α → α → Bool} {a : α} {l : List α} :
    a ∈ stableSort lt l ↔ a ∈ l := by
  unfold stableSort
  rw [mem_foldl_insert]
  simp

theorem foldl_preserve_mem {α σ : Type} (Inv : σ → Prop) (f : σ → α → σ) :
    ∀ (l : List α), (∀ s a, a ∈ l → Inv s → Inv (f s a)) →
      ∀ s, Inv s → Inv (l.foldl f s) := by
  intro l
  induction l with
  | nil => intro _ s h; simpa
  | cons x xs ih =>
    intro h s hs
    simp only [List.foldl_cons]
    exact ih (fun s a ha => h s a (List.mem_cons_of_mem _ ha)) _
      (h s x (List.mem_cons_self _ _) hs)

/-- States related by appending only assignments satisfying `P`. -/
def ExtBy (P : ShiftAssignment → Prop) (s t : SchedState) : Prop :=
  ∃ k, t.assignments = s.assignments ++ k ∧ ∀ x ∈ k, P x

theorem ExtBy_refl (P : ShiftAssignment → Prop) (s : SchedState) : ExtBy P s s :=
  ⟨[], by simp, by simp⟩

theorem ExtBy_trans {P : ShiftAssignment → Prop} {s t u : SchedState}
    (h1 : ExtBy P s t) (h2 : ExtBy P t u) : ExtBy P s u := by
  obtain ⟨k1, e1, p1⟩ := h1
  obtain ⟨k2, e2, p2⟩ := h2
  refine ⟨k1 ++ k2, by rw [e2, e1, List.append_assoc], ?_⟩
  intro x hx
  rcases List.mem_append.1 hx with h | h
  · exact p1 x h
  · exact p2 x h

theorem ExtBy_of_eq {P : ShiftAssignment → Prop} {s t : SchedState}
    (h : t.assignments = s.assignments) : ExtBy P s t :=
  ⟨[], by simp [h], by simp⟩

theorem ExtBy_single {P : ShiftAssignment → Prop} {s t : SchedState}
    {x : ShiftAssignment} (h : t.assignments = s.assignments ++ [x]) (hx : P x) :
    ExtBy P s t :=
  ⟨[x], h, by simpa⟩

theorem foldl_ExtBy_mem {α : Type} {P : ShiftAssignment → Prop}
    (f : SchedState → α → SchedState) :
    ∀ (l : List α), (∀ s a, a ∈ l → ExtBy P s (f s a)) →
      ∀ s, ExtBy P s (l.foldl f s) := by
  intro l
  induction l with
  | nil => intro _ s; exact ExtBy_refl P s
  | cons x xs ih =>
    intro h s
    simp only [List.foldl_cons]
    exact ExtBy_trans (h s x (List.mem_cons_self _ _))
      (ih (fun s a ha => h s a (List.mem_cons_of_mem _ ha)) _)

/-! ## Plumbing for `canAssign` and the selection paths -/

theorem pushConflict_assign (s : SchedState) (c : ConflictMsg) :
    (pushConflict s c).assignments = s.assignments := rfl

theorem canApplyMFUGo_sndAssign (opts : ScheduleOptions) (e : Employee)
    (d : Nat) (st : ShiftType) :
    ∀ (rs : List ShiftRule) (s : SchedState),
      ((canApplyMFUGo opts e d st rs s).2).assignments = s.assignments := by
  intro rs
  induction rs with
  | nil => intro s; rfl
  | cons r rs ih =>
    intro s
    cases hdec : mfuDecide opts e d st s.assignments r with
    | skip => simp only [canApplyMFUGo, hdec]; exact ih s
    | conflict c => simp [canApplyMFUGo, hdec, pushConflict]
    | blocked => simp only [canApplyMFUGo, hdec]
    | push ts fd => simp only [canApplyMFUGo, hdec]; exact ih s

theorem canApplyMFUGo_fst_congr (opts : ScheduleOptions) (e : Employee)
    (d : Nat) (st : ShiftType) :
    ∀ (rs : List ShiftRule) (s1 s2 : SchedState),
      s1.assignments = s2.assignments →
      (canApplyMFUGo opts e d st rs s1).1 = (canApplyMFUGo opts e d st rs s2).1 := by
  intro rs
  induction rs with
  | nil => intro s1 s2 _; rfl
  | cons r rs ih =>
    intro s1 s2 h
    cases hdec : mfuDecide opts e d st s2.assignments r with
    | skip =>
      simp only [canApplyMFUGo, h, hdec]
      exact ih s1 s2 h
    | conflict c => simp only [canApplyMFUGo, h, hdec]
    | blocked => simp only [canApplyMFUGo, h, hdec]
    | push ts fd =>
      simp only [canApplyMFUGo, h, hdec]
      exact ih s1 s2 h

theorem canAssign_sndAssign (opts : ScheduleOptions) (s : SchedState)
    (e : Employee) (d : Nat) (st : ShiftType) :
    ((canAssign opts s e d st).2).assignments = s.assignments := by
  unfold canAssign canApplyMandatoryFollowUps
  split
  · rfl
  split
  · rfl
  split
  · rfl
  split
  · rfl
  exact canApplyMFUGo_sndAssign opts e d st opts.shiftRules s

theorem canAssign_fst_congr (opts : ScheduleOptions) {s1 s2 : SchedState}
    (e : Employee) (d : Nat) (st : ShiftType)
    (h : s1.assignments = s2.assignments) :
    (canAssign opts s1 e d st).1 = (canAssign opts s2 e d st).1 := by
  unfold canAssign canApplyMandatoryFollowUps
  rw [h]
  split
  · rfl
  split
  · rfl
  split
  · rfl
  split
  · rfl
  exact canApplyMFUGo_fst_congr opts e d st opts.shiftRules s1 s2 h

theorem canAssign_true_elim (opts : ScheduleOptions) {s : SchedState}
    {e : Employee} {d : Nat} {st : ShiftType}
    (h : (canAssign opts s e d st).1 = true) :
    e.allowedShifts.contains st.id = true ∧
    isEmployeeAvailable opts e d st = true ∧
    hasPrimaryOn s.assignments e.id d = false ∧
    violatesForbiddenSequence opts s.assignments e d st = false := by
  unfold canAssign at h
  split at h
  · simp at h
  next h1 =>
    split at h
    · simp at h
    next h2 =>
      split at h
      · simp at h
      next h3 =>
        split at h
        · simp at h
        next h4 =>
          simp only [Bool.not_eq_true', Bool.not_eq_true] at h1 h2 h3 h4
          exact ⟨by simpa using h1, by simpa using h2, by simpa using h3,
                 by simpa using h4⟩

theorem selGo_sndAssign (opts : ScheduleOptions) (d : Nat) (st : ShiftType) :
    ∀ (l : List Employee) (s : SchedState),
      ((selGo opts d st l s).2).assignments = s.assignments := by
  intro l
  induction l with
  | nil => intro s; rfl
  | cons e rest ih =>
    intro s
    simp only [selGo]
    split
    · exact canAssign_sndAssign opts s e d st
    · rw [ih]
      exact canAssign_sndAssign opts s e d st

theorem selGo_fst_eq (opts : ScheduleOptions) (d : Nat) (st : ShiftType) :
    ∀ (l : List Employee) (s0 s : SchedState),
      s.assignments = s0.assignments →
      (selGo opts d st l s).1 = l.find? (fun e => (canAssign opts s0 e d st).1) := by
  intro l
  induction l with
  | nil => intro s0 s _; rfl
  | cons e rest ih =>
    intro s0 s h
    have hc : (canAssign opts s e d st).1 = (canAssign opts s0 e d st).1 :=
      canAssign_fst_congr opts e d st h
    simp only [selGo, List.find?]
    cases hb : (canAssign opts s0 e d st).1 with
    | false =>
      rw [hc, hb]
      simp only [Bool.false_eq_true, if_false, cond_false]
      exact ih s0 _ (by rw [canAssign_sndAssign, h])
    | true =>
      rw [hc, hb]
      simp

theorem selectCandidate_sndAssign (opts : ScheduleOptions) (s : SchedState)
    (d : Nat) (st : ShiftType) :
    ((selectCandidate opts s d st).2).assignments = s.assignments := by
  unfold selectCandidate
  exact selGo_sndAssign opts d st _ s

theorem selectCandidate_some_elim (opts : ScheduleOptions) {s s1 : SchedState}
    {e : Employee} {d : Nat} {st : ShiftType}
    (h : selectCandidate opts s d st = (some e, s1)) :
    s1.assignments = s.assignments ∧ e ∈ opts.employees ∧
    e.allowedShifts.contains st.id = true ∧
    isEmployeeAvailable opts e d st = true ∧
    hasPrimaryOn s.assignments e.id d = false ∧
    violatesForbiddenSequence opts s.assignments e d st = false := by
  have hsnd : s1.assignments = s.assignments := by
    have := selectCandidate_sndAssign opts s d st
    rw [h] at this
    exact this
  have hfst : (selectCandidate opts s d st).1 = some e := by rw [h]
  unfold selectCandidate at hfst
  rw [selGo_fst_eq opts d st _ s s rfl] at hfst
  have hmem := List.mem_of_find?_eq_some hfst
  have hp : (canAssign opts s e d st).1 = true := by
    have := List.find?_some hfst
    simpa using this
  have hmem2 : e ∈ opts.employees := by
    rw [List.partition_eq_filter_filter] at hmem
    simp only [List.mem_append, List.mem_filter] at hmem
    have he : e ∈ rankedEmployees opts s st := by tauto
    unfold rankedEmployees at he
    rw [mem_stableSort] at he
    exact he
  obtain ⟨h1, h2, h3, h4⟩ := canAssign_true_elim opts hp
  exact ⟨hsnd, hmem2, h1, h2, h3, h4⟩

theorem selectAnyCandidate_some_elim (opts : ScheduleOptions) {s : SchedState}
    {e : Employee} {d : Nat} {st : ShiftType}
    (h : selectAnyCandidate opts s d st = some e) :
    e ∈ opts.employees ∧ e.allowedShifts.contains st.id = true ∧
    isEmployeeAvailable opts e d st = true ∧
    hasPrimaryOn s.assignments e.id d = false := by
  unfold selectAnyCandidate at h
  have hmem := List.mem_of_find?_eq_some h
  have hp := List.find?_some h
  simp only [Bool.and_eq_true, Bool.not_eq_true'] at hp
  exact ⟨hmem, hp.1.1, hp.1.2, hp.2⟩

theorem zeroScan_sndAssign (opts : ScheduleOptions) (d : Nat) (st : ShiftType) :
    ∀ (ids acc : List String) (s : SchedState),
      ((zeroScan opts d st ids acc s).2.2).assignments = s.assignments := by
  intro ids
  induction ids with
  | nil => intro acc s; rfl
  | cons eid rest ih =>
    intro acc s
    simp only [zeroScan]
    cases hf : opts.employees.find? (fun e => e.id == eid) with
    | none => exact ih _ s
    | some emp =>
      simp only
      split
      · exact canAssign_sndAssign opts s emp d st
      · rw [ih]
        exact canAssign_sndAssign opts s emp d st

theorem zeroScan_some_elim (opts : ScheduleOptions) (d : Nat) (st : ShiftType) :
    ∀ (ids acc : List String) (s : SchedState) {emp : Employee}
      {nl : List String} {s1 : SchedState},
      zeroScan opts d st ids acc s = (some emp, nl, s1) →
      emp ∈ opts.employees ∧ emp.allowedShifts.contains st.id = true ∧
      isEmployeeAvailable opts emp d st = true ∧
      hasPrimaryOn s.assignments emp.id d = false ∧
      violatesForbiddenSequence opts s.assignments emp d st = false := by
  intro ids
  induction ids with
  | nil => intro acc s emp nl s1 h; simp [zeroScan] at h
  | cons eid rest ih =>
    intro acc s emp nl s1 h
    simp only [zeroScan] at h
    cases hf : opts.employees.find? (fun e => e.id == eid) with
    | none =>
      rw [hf] at h
      exact ih _ s h
    | some emp0 =>
      rw [hf] at h
      simp only at h
      split at h
      next hb =>
        have he : some emp0 = some emp := congrArg Prod.fst h
        obtain rfl : emp0 = emp := Option.some.inj he
        have hmem : emp0 ∈ opts.employees := List.mem_of_find?_eq_some hf
        obtain ⟨h1, h2, h3, h4⟩ := canAssign_true_elim opts hb
        exact ⟨hmem, h1, h2, h3, h4⟩
      next hb =>
        have hrec := ih _ _ h
        rw [canAssign_sndAssign] at hrec
        exact hrec

theorem zeroPath_sndAssign (opts : ScheduleOptions) (s : SchedState) (d : Nat)
    (st : ShiftType) :
    ((zeroPath opts s d st).2).assignments = s.assignments := by
  unfold zeroPath
  cases hv : alGet s.vmAssignmentsByDate d with
  | none => rfl
  | some list =>
    simp only
    cases hz : zeroScan opts d st list [] s with
    | mk oe rest =>
      obtain ⟨nl, s1⟩ := rest
      have hzs : ((zeroScan opts d st list [] s).2.2).assignments = s.assignments :=
        zeroScan_sndAssign opts d st list [] s
      rw [hz] at hzs
      cases oe with
      | some emp => simpa using hzs
      | none =>
        simp only
        split
        · exact hzs
        · rw [pushConflict_assign]
          exact hzs

theorem zeroPath_some_elim (opts : ScheduleOptions) {s s1 : SchedState}
    {e : Employee} {d : Nat} {st : ShiftType}
    (h : zeroPath opts s d st = (some e, s1)) :
    e ∈ opts.employees ∧ e.allowedShifts.contains st.id = true ∧
    isEmployeeAvailable opts e d st = true ∧
    hasPrimaryOn s.assignments e.id d = false ∧
    violatesForbiddenSequence opts s.assignments e d st = false := by
  unfold zeroPath at h
  cases hv : alGet s.vmAssignmentsByDate d with
  | none => rw [hv] at h; simp at h
  | some list =>
    rw [hv] at h
    simp only at h
    cases hz : zeroScan opts d st list [] s with
    | mk oe rest =>
      obtain ⟨nl, s2⟩ := rest
      rw [hz] at h
      cases oe with
      | some emp =>
        simp only at h
        have he : some emp = some e := congrArg Prod.fst h
        obtain rfl : emp = e := Option.some.inj he
        exact zeroScan_some_elim opts d st list [] s hz
      | none =>
        simp only at h
        split at h <;> simp at h

theorem vmReversePath_sndAssign (opts : ScheduleOptions) (s : SchedState)
    (d : Nat) (st : ShiftType) (z : String) :
    ((vmReversePath opts s d st z).2).assignments = s.assignments := by
  unfold vmReversePath
  cases s.assignments.find? (fun a => decide (a.date = d) && a.shiftId == z && !a.isFollowUp) with
  | none => rfl
  | some za =>
    simp only
    cases opts.employees.find? (fun e => e.id == za.employeeId) with
    | none => rfl
    | some emp =>
      simp only
      split
      · exact canAssign_sndAssign opts s emp d st
      · rw [pushConflict_assign]
        exact canAssign_sndAssign opts s emp d st

theorem vmReversePath_some_elim (opts : ScheduleOptions) {s s1 : SchedState}
    {e : Employee} {d : Nat} {st : ShiftType} {z : String}
    (h : vmReversePath opts s d st z = (some e, s1)) :
    e ∈ opts.employees ∧ e.allowedShifts.contains st.id = true ∧
    isEmployeeAvailable opts e d st = true ∧
    hasPrimaryOn s.assignments e.id d = false ∧
    violatesForbiddenSequence opts s.assignments e d st = false := by
  unfold vmReversePath at h
  cases hf : s.assignments.find? (fun a => decide (a.date = d) && a.shiftId == z && !a.isFollowUp) with
  | none => rw [hf] at h; simp at h
  | some za =>
    rw [hf] at h
    simp only at h
    cases hf2 : opts.employees.find? (fun e => e.id == za.employeeId) with
    | none => rw [hf2] at h; simp at h
    | some emp =>
      rw [hf2] at h
      simp only at h
      split at h
      next hb =>
        have he : some emp = some e := congrArg Prod.fst h
        obtain rfl : emp = e := Option.some.inj he
        have hmem : emp ∈ opts.employees := List.mem_of_find?_eq_some hf2
        obtain ⟨h1, h2, h3, h4⟩ := canAssign_true_elim opts hb
        exact ⟨hmem, h1, h2, h3, h4⟩
      next hb => simp at h

theorem pickSel_sndAssign (opts : ScheduleOptions) (s : SchedState) (d : Nat)
    (st : ShiftType) :
    ((pickSel opts s d st).2).assignments = s.assignments := by
  unfold pickSel
  cases hc : selectCandidate opts s d st with
  | mk oe s3 =>
    have hs3 : s3.assignments = s.assignments := by
      have := selectCandidate_sndAssign opts s d st
      rw [hc] at this
      exact this
    cases oe with
    | some e => simpa using hs3
    | none => simpa using hs3

theorem pickSel_some_elim (opts : ScheduleOptions) {s s1 : SchedState}
    {e : Employee} {d : Nat} {st : ShiftType}
    (h : pickSel opts s d st = (some e, s1)) :
    e ∈ opts.employees ∧ isEmployeeAvailable opts e d st = true ∧
    hasPrimaryOn s.assignments e.id d = false := by
  unfold pickSel at h
  cases hc : selectCandidate opts s d st with
  | mk oe s3 =>
    rw [hc] at h
    have hs3 : s3.assignments = s.assignments := by
      have := selectCandidate_sndAssign opts s d st
      rw [hc] at this
      exact this
    cases oe with
    | some e0 =>
      simp only at h
      have he : some e0 = some e := congrArg Prod.fst h
      obtain rfl : e0 = e := Option.some.inj he
      obtain ⟨_, hm, _, ha, hp, _⟩ := selectCandidate_some_elim opts hc
      exact ⟨hm, ha, hp⟩
    | none =>
      simp only at h
      have he : selectAnyCandidate opts s3 d st = some e := congrArg Prod.fst h
      obtain ⟨hm, _, ha, hp⟩ := selectAnyCandidate_some_elim opts he
      rw [hs3] at hp
      exact ⟨hm, ha, hp⟩

theorem pickVm_sndAssign (opts : ScheduleOptions) (s : SchedState) (d : Nat)
    (st : ShiftType) :
    ((pickVm opts s d st).2).assignments = s.assignments := by
  unfold pickVm
  have hbase : ∀ (q2 : Option Employee × SchedState),
      (q2.2).assignments = s.assignments →
      ((match q2 with
        | (some e, s2) => (some e, s2)
        | (none, s2) => pickSel opts s2 d st).2).assignments = s.assignments := by
    intro q2 hq
    obtain ⟨oe, s2⟩ := q2
    cases oe with
    | some e => simpa using hq
    | none =>
      simp only
      rw [pickSel_sndAssign]
      exact hq
  apply hbase
  cases hv : firstVmShiftId opts with
  | none => rfl
  | some v =>
    cases hz : zeroShiftId opts with
    | none => rfl
    | some z =>
      simp only
      split
      · exact vmReversePath_sndAssign opts s d st z
      · rfl

theorem pickVm_some_elim (opts : ScheduleOptions) {s s1 : SchedState}
    {e : Employee} {d : Nat} {st : ShiftType}
    (h : pickVm opts s d st = (some e, s1)) :
    e ∈ opts.employees ∧ isEmployeeAvailable opts e d st = true ∧
    hasPrimaryOn s.assignments e.id d = false := by
  unfold pickVm at h
  have hbase : ∀ (q2 : Option Employee × SchedState),
      (q2.2).assignments = s.assignments →
      (q2.1 = some e → e ∈ opts.employees ∧
        isEmployeeAvailable opts e d st = true ∧
        hasPrimaryOn s.assignments e.id d = false) →
      (match q2 with
        | (some e, s2) => (some e, s2)
        | (none, s2) => pickSel opts s2 d st) = (some e, s1) →
      e ∈ opts.employees ∧ isEmployeeAvailable opts e d st = true ∧
      hasPrimaryOn s.assignments e.id d = false := by
    intro q2 hq hsome hm
    obtain ⟨oe, s2⟩ := q2
    cases oe with
    | some e0 =>
      simp only at hm
      have he : some e0 = some e := congrArg Prod.fst hm
      exact hsome he
    | none =>
      simp only at hm
      have := pickSel_some_elim opts hm
      rw [hq] at this
      exact this
  refine hbase _ ?_ ?_ h
  · cases hv : firstVmShiftId opts with
    | none => rfl
    | some v =>
      cases hz : zeroShiftId opts with
      | none => rfl
      | some z =>
        simp only
        split
        · exact vmReversePath_sndAssign opts s d st z
        · rfl
  · cases hv : firstVmShiftId opts with
    | none => intro hc; simp at hc
    | some v =>
      cases hz : zeroShiftId opts with
      | none => intro hc; simp at hc
      | some z =>
        simp only
        split
        · intro hc
          cases hr : vmReversePath opts s d st z with
          | mk oe s2 =>
            rw [hr] at hc
            simp only at hc
            cases oe with
            | none => simp at hc
            | some e0 =>
              obtain rfl : e0 = e := Option.some.inj hc
              obtain ⟨hm, _, ha, hp, _⟩ := vmReversePath_some_elim opts hr
              exact ⟨hm, ha, hp⟩
        · intro hc; simp at hc

theorem pickEmployee_sndAssign (opts : ScheduleOptions) (s : SchedState)
    (d : Nat) (st : ShiftType) :
    ((pickEmployee opts s d st).2).assignments = s.assignments := by
  unfold pickEmployee
  have hbase : ∀ (q1 : Option Employee × SchedState),
      (q1.2).assignments = s.assignments →
      ((match q1 with
        | (some e, s1) => (some e, s1)
        | (none, s1) => pickVm opts s1 d st).2).assignments = s.assignments := by
    intro q1 hq
    obtain ⟨oe, s1⟩ := q1
    cases oe with
    | some e => simpa using hq
    | none =>
      simp only
      rw [pickVm_sndAssign]
      exact hq
  apply hbase
  cases hz : zeroShiftId opts with
  | none => rfl
  | some z =>
    simp only
    split
    · exact zeroPath_sndAssign opts s d st
    · rfl

theorem pickEmployee_some_elim (opts : ScheduleOptions) {s s1 : SchedState}
    {e : Employee} {d : Nat} {st : ShiftType}
    (h : pickEmployee opts s d st = (some e, s1)) :
    e ∈ opts.employees ∧ isEmployeeAvailable opts e d st = true ∧
    hasPrimaryOn s.assignments e.id d = false := by
  unfold pickEmployee at h
  have hbase : ∀ (q1 : Option Employee × SchedState),
      (q1.2).assignments = s.assignments →
      (q1.1 = some e → e ∈ opts.employees ∧
        isEmployeeAvailable opts e d st = true ∧
        hasPrimaryOn s.assignments e.id d = false) →
      (match q1 with
        | (some e, s1) => (some e, s1)
        | (none, s1) => pickVm opts s1 d st) = (some e, s1) →
      e ∈ opts.employees ∧ isEmployeeAvailable opts e d st = true ∧
      hasPrimaryOn s.assignments e.id d = false := by
    intro q1 hq hsome hm
    obtain ⟨oe, s2⟩ := q1
    cases oe with
    | some e0 =>
      simp only at hm
      have he : some e0 = some e := congrArg Prod.fst hm
      exact hsome he
    | none =>
      simp only at hm
      have := pickVm_some_elim opts hm
      rw [hq] at this
      exact this
  refine hbase _ ?_ ?_ h
  · cases hz : zeroShiftId opts with
    | none => rfl
    | some z =>
      simp only
      split
      · exact zeroPath_sndAssign opts s d st
      · rfl
  · cases hz : zeroShiftId opts with
    | none => intro hc; simp at hc
    | some z =>
      simp only
      split
      · intro hc
        cases hr : zeroPath opts s d st with
        | mk oe s2 =>
          rw [hr] at hc
          simp only at hc
          cases oe with
          | none => simp at hc
          | some e0 =>
            obtain rfl : e0 = e := Option.some.inj hc
            obtain ⟨hm, _, ha, hp, _⟩ := zeroPath_some_elim opts hr
            exact ⟨hm, ha, hp⟩
      · intro hc; simp at hc

/-! ## Mandatory follow-up lemmas -/

theorem shiftMapGet_mem {opts : ScheduleOptions} {k : String} {st : ShiftType}
    (h : shiftMapGet opts k = some st) : st ∈ opts.shiftTypes := by
  have := List.mem_of_find?_eq_some h
  rwa [List.mem_reverse] at this

theorem mfuDecideAt_push_elim {opts : ScheduleOptions} {e : Employee}
    {fdate : Nat} {toShift : ShiftType} {l : List ShiftAssignment}
    {ts : ShiftType} {fd : Nat}
    (h : mfuDecideAt opts e fdate toShift l = .push ts fd) :
    toShift = ts ∧ fdate = fd ∧
    e.allowedShifts.contains ts.id = true ∧
    isEmployeeAvailable opts e fd ts = true ∧
    hasPrimaryOn l e.id fd = false ∧
    (l.any (fun a => a.employeeId == e.id && decide (a.date = fd) &&
      a.shiftId == ts.id)) = false ∧
    countOn l ts fd < mfuDemand ts fd := by
  unfold mfuDecideAt at h
  split at h
  · simp at h
  next hallow =>
    split at h
    · simp at h
    next havail =>
      split at h
      · simp at h
      next halready =>
        split at h
        · simp at h
        next hcap =>
          have hts : toShift = ts ∧ fdate = fd := by
            injection h with h1 h2
            exact ⟨h1, h2⟩
          obtain ⟨heq1, heq2⟩ := hts
          simp only [Bool.not_eq_true', Bool.not_eq_true] at hallow havail
          simp only [Bool.or_eq_true, not_or, Bool.not_eq_true] at halready
          simp only [decide_eq_true_eq, not_le] at hcap
          refine ⟨heq1, heq2, ?_, ?_, ?_, ?_, ?_⟩
          · rw [← heq1]; simpa using hallow
          · rw [← heq1, ← heq2]; simpa using havail
          · rw [← heq2]; exact halready.1
          · rw [← heq1, ← heq2]; exact halready.2
          · rw [← heq1, ← heq2]; exact hcap

/-- If the guards pass on one assignment list, then on any list the decision
is either the same push or blocked by the already/capacity tests. -/
theorem mfuDecideAt_trichotomy (opts : ScheduleOptions) (e : Employee)
    (fd : Nat) (ts : ShiftType) (l : List ShiftAssignment)
    (hallow : e.allowedShifts.contains ts.id = true)
    (havail : isEmployeeAvailable opts e fd ts = true) :
    mfuDecideAt opts e fd ts l = .push ts fd ∨
    hasPrimaryOn l e.id fd = true ∨
    (l.any (fun a => a.employeeId == e.id && decide (a.date = fd) &&
      a.shiftId == ts.id)) = true ∨
    mfuDemand ts fd ≤ countOn l ts fd := by
  unfold mfuDecideAt
  rw [hallow, havail]
  simp only [Bool.not_true, Bool.false_eq_true, if_false]
  by_cases h1 : hasPrimaryOn l e.id fd = true
  · right; left; exact h1
  by_cases h2 : (l.any (fun a => a.employeeId == e.id && decide (a.date = fd) &&
      a.shiftId == ts.id)) = true
  · right; right; left; exact h2
  by_cases h3 : mfuDemand ts fd ≤ countOn l ts fd
  · right; right; right; exact h3
  · left
    rw [Bool.not_eq_true] at h1 h2
    rw [h1, h2]
    simp [h3]

theorem mfuDecide_push_elim {opts : ScheduleOptions} {e : Employee} {d : Nat}
    {st : ShiftType} {l : List ShiftAssignment} {r : ShiftRule} {ts : ShiftType}
    {fd : Nat} (h : mfuDecide opts e d st l r = .push ts fd) :
    shiftMapGet opts (r.toShiftId.getD "") = some ts ∧
    e.allowedShifts.contains ts.id = true ∧
    isEmployeeAvailable opts e fd ts = true ∧
    hasPrimaryOn l e.id fd = false ∧
    (l.any (fun a => a.employeeId == e.id && decide (a.date = fd) &&
      a.shiftId == ts.id)) = false ∧
    countOn l ts fd < mfuDemand ts fd ∧
    fd = (if r.sameDay then d else d + 1) := by
  unfold mfuDecide at h
  split at h
  · simp at h
  cases hm : shiftMapGet opts (r.toShiftId.getD "") with
  | none => rw [hm] at h; simp at h
  | some toShift =>
    rw [hm] at h
    simp only at h
    split at h
    · simp at h
    obtain ⟨heq1, hfd, h1, h2, h3, h4, h5⟩ := mfuDecideAt_push_elim h
    exact ⟨by rw [heq1], h1, h2, h3, h4, h5, hfd.symm⟩

/-- A push decision fixes the rule's static tests, so on every assignment
list the decision reduces to `mfuDecideAt` at the same target and date. -/
theorem mfuDecide_push_structure {opts : ScheduleOptions} {e : Employee}
    {d : Nat} {st : ShiftType} {l : List ShiftAssignment} {r : ShiftRule}
    {ts : ShiftType} {fd : Nat}
    (h : mfuDecide opts e d st l r = .push ts fd) :
    (∀ l', mfuDecide opts e d st l' r =
      mfuDecideAt opts e (if r.sameDay then d else d + 1) ts l') ∧
    mfuDecideAt opts e (if r.sameDay then d else d + 1) ts l = .push ts fd := by
  unfold mfuDecide at h
  split at h
  · simp at h
  next hrule =>
    cases hm : shiftMapGet opts (r.toShiftId.getD "") with
    | none => rw [hm] at h; simp at h
    | some toShift =>
      rw [hm] at h
      simp only at h
      split at h
      · simp at h
      next hfy =>
        obtain ⟨heq1, _, _, _, _, _, _⟩ := mfuDecideAt_push_elim h
        subst heq1
        constructor
        · intro l'
          unfold mfuDecide
          rw [if_neg hrule, hm]
          simp only
          rw [if_neg hfy]
        · exact h

theorem mfuCommit_assign (e : Employee) (s : SchedState) (ts : ShiftType)
    (fd : Nat) :
    (mfuCommit e s ts fd).assignments =
      s.assignments ++ [{ employeeId := e.id, shiftId := ts.id, date := fd,
                          locked := false, isFollowUp := true }] := rfl

theorem mfuStep_cases (opts : ScheduleOptions) (e : Employee) (d : Nat)
    (st : ShiftType) (s : SchedState) (r : ShiftRule) :
    (mfuStep opts e d st s r).assignments = s.assignments ∨
    ∃ ts fd, mfuDecide opts e d st s.assignments r = .push ts fd ∧
      (mfuStep opts e d st s r).assignments =
        s.assignments ++ [{ employeeId := e.id, shiftId := ts.id, date := fd,
                            locked := false, isFollowUp := true }] := by
  unfold mfuStep
  cases hdec : mfuDecide opts e d st s.assignments r with
  | skip => left; rfl
  | conflict c => left; rfl
  | blocked => left; rfl
  | push ts fd => right; exact ⟨ts, fd, rfl, rfl⟩

theorem hasPrimaryOn_false_elim {l : List ShiftAssignment} {eid : String}
    {d : Nat} (h : hasPrimaryOn l eid d = false) :
    ∀ a ∈ l, ¬(a.employeeId = eid ∧ a.date = d ∧ a.isFollowUp = false) := by
  intro a ha hcon
  unfold hasPrimaryOn at h
  have : l.any (fun a => a.employeeId == eid && decide (a.date = d) && !a.isFollowUp) = true := by
    rw [List.any_eq_true]
    refine ⟨a, ha, ?_⟩
    simp [hcon.1, hcon.2.1, hcon.2.2]
  rw [h] at this
  exact Bool.false_ne_true this

/-! ## The combined commit invariant -/

/-- One engine step is *good* when it only appends unlocked assignments that
were availability-checked, and it preserves the no-double-booking invariant. -/
def GoodStep (opts : ScheduleOptions) (s t : SchedState) : Prop :=
  (∃ k, t.assignments = s.assignments ++ k ∧
    ∀ x ∈ k, x.locked = false ∧ AvailWitness opts x) ∧
  (NoDoubleBooking opts s.assignments → NoDoubleBooking opts t.assignments)

theorem GoodStep_refl (opts : ScheduleOptions) (s : SchedState) :
    GoodStep opts s s :=
  ⟨⟨[], by simp, by simp⟩, id⟩

theorem GoodStep_trans {opts : ScheduleOptions} {a b c : SchedState}
    (h1 : GoodStep opts a b) (h2 : GoodStep opts b c) : GoodStep opts a c := by
  obtain ⟨⟨k1, e1, p1⟩, nd1⟩ := h1
  obtain ⟨⟨k2, e2, p2⟩, nd2⟩ := h2
  refine ⟨⟨k1 ++ k2, by rw [e2, e1, List.append_assoc], ?_⟩, fun h => nd2 (nd1 h)⟩
  intro x hx
  rcases List.mem_append.1 hx with h | h
  · exact p1 x h
  · exact p2 x h

theorem GoodStep_of_eq {opts : ScheduleOptions} {s t : SchedState}
    (h : t.assignments = s.assignments) : GoodStep opts s t :=
  ⟨⟨[], by simp [h], by simp⟩, by rw [h]; exact id⟩

theorem foldl_rel_mem {α : Type} (R : SchedState → SchedState → Prop)
    (hrefl : ∀ s, R s s)
    (htrans : ∀ {a b c : SchedState}, R a b → R b c → R a c)
    (f : SchedState → α → SchedState) :
    ∀ (l : List α), (∀ s a, a ∈ l → R s (f s a)) → ∀ s, R s (l.foldl f s) := by
  intro l
  induction l with
  | nil => intro _ s; exact hrefl s
  | cons x xs ih =>
    intro h s
    simp only [List.foldl_cons]
    exact htrans (h s x (List.mem_cons_self _ _))
      (ih (fun s a ha => h s a (List.mem_cons_of_mem _ ha)) _)

theorem GoodStep_append_fu {opts : ScheduleOptions} {s t : SchedState}
    {e : Employee} {ts : ShiftType} {fd : Nat}
    (he : e ∈ opts.employees) (hts : ts ∈ opts.shiftTypes)
    (hav : isEmployeeAvailable opts e fd ts = true)
    (heq : t.assignments = s.assignments ++
      [{ employeeId := e.id, shiftId := ts.id, date := fd,
         locked := false, isFollowUp := true }]) :
    GoodStep opts s t := by
  refine ⟨⟨_, heq, ?_⟩, ?_⟩
  · intro x hx
    rw [List.mem_singleton] at hx
    subst hx
    exact ⟨rfl, ⟨e, he, rfl, ts, hts, rfl, hav⟩⟩
  · intro hnd
    rw [heq]
    unfold NoDoubleBooking at hnd ⊢
    rw [List.pairwise_append]
    refine ⟨hnd, List.pairwise_singleton _ _, ?_⟩
    intro a _ b hb
    rw [List.mem_singleton] at hb
    subst hb
    intro _ hfu
    exact absurd hfu (by simp)

theorem GoodStep_append_primary {opts : ScheduleOptions} {s t : SchedState}
    {e : Employee} {st : ShiftType} {d : Nat}
    (he : e ∈ opts.employees) (hst : st ∈ opts.shiftTypes)
    (hav : isEmployeeAvailable opts e d st = true)
    (hprim : hasPrimaryOn s.assignments e.id d = false)
    (heq : t.assignments = s.assignments ++
      [{ employeeId := e.id, shiftId := st.id, date := d,
         locked := false, isFollowUp := false }]) :
    GoodStep opts s t := by
  refine ⟨⟨_, heq, ?_⟩, ?_⟩
  · intro x hx
    rw [List.mem_singleton] at hx
    subst hx
    exact ⟨rfl, ⟨e, he, rfl, st, hst, rfl, hav⟩⟩
  · intro hnd
    rw [heq]
    unfold NoDoubleBooking at hnd ⊢
    rw [List.pairwise_append]
    refine ⟨hnd, List.pairwise_singleton _ _, ?_⟩
    intro a ha b hb
    rw [List.mem_singleton] at hb
    subst hb
    intro hafu _ haemp hadate
    exact absurd ⟨haemp, hadate, hafu⟩ (hasPrimaryOn_false_elim hprim a ha)

theorem GoodStep_mfuStep {opts : ScheduleOptions} {e : Employee} {d : Nat}
    {st : ShiftType} (s : SchedState) (r : ShiftRule)
    (he : e ∈ opts.employees) :
    GoodStep opts s (mfuStep opts e d st s r) := by
  rcases mfuStep_cases opts e d st s r with h | ⟨ts, fd, hdec, h⟩
  · exact GoodStep_of_eq h
  · obtain ⟨hm, _, hav, _, _, _, _⟩ := mfuDecide_push_elim hdec
    exact GoodStep_append_fu he (shiftMapGet_mem hm) hav h

theorem GoodStep_applyMFU {opts : ScheduleOptions} {e : Employee} {d : Nat}
    {st : ShiftType} (s : SchedState) (he : e ∈ opts.employees) :
    GoodStep opts s (applyMandatoryFollowUps opts e d st s) := by
  unfold applyMandatoryFollowUps
  exact foldl_rel_mem (GoodStep opts) (GoodStep_refl opts)
    (fun h1 h2 => GoodStep_trans h1 h2) _ opts.shiftRules
    (fun s r _ => GoodStep_mfuStep s r he) s

theorem createAssignment_assign (opts : ScheduleOptions) (s : SchedState)
    (e : Employee) (st : ShiftType) (d : Nat) :
    (createAssignment opts s e st d).assignments =
      s.assignments ++ [{ employeeId := e.id, shiftId := st.id, date := d,
                          locked := false, isFollowUp := false }] := rfl

theorem GoodStep_commitAndFollow {opts : ScheduleOptions} {s : SchedState}
    {e : Employee} {d : Nat} {st : ShiftType}
    (he : e ∈ opts.employees) (hst : st ∈ opts.shiftTypes)
    (hav : isEmployeeAvailable opts e d st = true)
    (hprim : hasPrimaryOn s.assignments e.id d = false) :
    GoodStep opts s (commitAndFollow opts s e d st) := by
  unfold commitAndFollow
  have h1 : GoodStep opts s (createAssignment opts s e st d) :=
    GoodStep_append_primary he hst hav hprim (createAssignment_assign opts s e st d)
  set s1 := createAssignment opts s e st d with hs1
  have h2 : GoodStep opts s1
      (if firstVmShiftId opts == some st.id then
        { s1 with vmAssignmentsByDate := alUpd s1.vmAssignmentsByDate d [] (· ++ [e.id]) }
      else s1) := by
    split
    · exact GoodStep_of_eq rfl
    · exact GoodStep_refl opts s1
  exact GoodStep_trans h1 (GoodStep_trans h2 (GoodStep_applyMFU _ he))

/-! ## Priority-group characterisation -/

theorem groupStep_foldl :
    ∀ (l : List ShiftType) (t : List ShiftType × List ShiftType × List ShiftType × List ShiftType),
      l.foldl groupStep t =
        (t.1 ++ l.filter p34, t.2.1 ++ l.filter p2,
         t.2.2.1 ++ l.filter p01, t.2.2.2 ++ l.filter pOther) := by
  intro l
  induction l with
  | nil => intro t; simp [List.filter_nil]
  | cons st l ih =>
    intro t
    simp only [List.foldl_cons, ih]
    unfold groupStep
    by_cases h34 : (strStartsWith (strTrim st.name) "3" ||
        strStartsWith (strTrim st.name) "4") = true
    · have : p34 st = true := h34
      simp [h34, p34, p2, p01, pOther, this, List.filter_cons]
    · by_cases h2 : strStartsWith (strTrim st.name) "2" = true
      · simp [h34, h2, p34, p2, p01, pOther, List.filter_cons]
      · by_cases h01 : (strStartsWith (strTrim st.name) "0" ||
            strStartsWith (strTrim st.name) "1") = true
        · simp [h34, h2, h01, p34, p2, p01, pOther, List.filter_cons]
        · simp [h34, h2, h01, p34, p2, p01, pOther, List.filter_cons]

theorem getPriorityGroups_eq (opts : ScheduleOptions) :
    getPriorityGroups opts =
      [opts.shiftTypes.filter p34, opts.shiftTypes.filter p2,
       stableSort lt01 (opts.shiftTypes.filter p01),
       opts.shiftTypes.filter pOther] := by
  unfold getPriorityGroups
  rw [groupStep_foldl]
  simp

theorem groups_sub {opts : ScheduleOptions} {g : List ShiftType} {st : ShiftType}
    (hg : g ∈ getPriorityGroups opts) (hst : st ∈ g) : st ∈ opts.shiftTypes := by
  rw [getPriorityGroups_eq] at hg
  simp only [List.mem_cons, List.not_mem_nil, or_false] at hg
  rcases hg with rfl | rfl | rfl | rfl
  · exact (List.mem_filter.1 hst).1
  · exact (List.mem_filter.1 hst).1
  · rw [mem_stableSort] at hst
    exact (List.mem_filter.1 hst).1
  · exact (List.mem_filter.1 hst).1

/-! ## The invariant chain over the scheduling loops -/

theorem GoodStep_fillSlots {opts : ScheduleOptions} {d : Nat} {st : ShiftType}
    (hst : st ∈ opts.shiftTypes) :
    ∀ (fuel : Nat) (s : SchedState), GoodStep opts s (fillSlots opts d st fuel s) := by
  intro fuel
  induction fuel with
  | zero => intro s; exact GoodStep_refl opts s
  | succ n ih =>
    intro s
    simp only [fillSlots]
    cases hp : pickEmployee opts s d st with
    | mk oe s1 =>
      have hs1 : s1.assignments = s.assignments := by
        have := pickEmployee_sndAssign opts s d st
        rw [hp] at this
        exact this
      cases oe with
      | some e =>
        simp only
        obtain ⟨hm, ha, hpr⟩ := pickEmployee_some_elim opts hp
        rw [← hs1] at hpr
        have hcommit : GoodStep opts s1 (commitAndFollow opts s1 e d st) :=
          GoodStep_commitAndFollow hm hst ha hpr
        exact GoodStep_trans (GoodStep_of_eq hs1)
          (GoodStep_trans hcommit (ih _))
      | none =>
        simp only
        exact GoodStep_of_eq (by rw [pushConflict_assign, hs1])

theorem GoodStep_fillShift {opts : ScheduleOptions} {d : Nat} {wd : String}
    {st : ShiftType} (hst : st ∈ opts.shiftTypes) (s : SchedState) :
    GoodStep opts s (fillShift opts d wd s st) := by
  unfold fillShift
  exact GoodStep_fillSlots hst _ s

theorem GoodStep_processDay {opts : ScheduleOptions} {g : List ShiftType}
    (hg : ∀ st ∈ g, st ∈ opts.shiftTypes) (s : SchedState) (d : Nat) :
    GoodStep opts s (processDay opts g s d) := by
  unfold processDay
  cases getWeekdayName d with
  | none => exact GoodStep_refl opts s
  | some wd =>
    exact foldl_rel_mem (GoodStep opts) (GoodStep_refl opts)
      (fun h1 h2 => GoodStep_trans h1 h2) _ g
      (fun s st hmem => GoodStep_fillShift (hg st hmem) s) s

theorem GoodStep_processGroup {opts : ScheduleOptions} {g : List ShiftType}
    {weekDays : List Nat} (hg : ∀ st ∈ g, st ∈ opts.shiftTypes)
    (s : SchedState) :
    GoodStep opts s (processGroup opts weekDays s g) := by
  unfold processGroup
  exact foldl_rel_mem (GoodStep opts) (GoodStep_refl opts)
    (fun h1 h2 => GoodStep_trans h1 h2) _ weekDays
    (fun s d _ => GoodStep_processDay hg s d) s

theorem GoodStep_processWeek (opts : ScheduleOptions) (s : SchedState)
    (w : Nat) : GoodStep opts s (processWeek opts s w) := by
  unfold processWeek
  refine foldl_rel_mem (GoodStep opts) (GoodStep_refl opts)
    (fun h1 h2 => GoodStep_trans h1 h2) _ (getPriorityGroups opts)
    (fun s g hmem => ?_) s
  exact GoodStep_processGroup (fun st hst => groups_sub hmem hst) s

theorem rotateApprentices_assign (opts : ScheduleOptions) (s : SchedState) :
    (rotateApprentices opts s).assignments = s.assignments := rfl

theorem GoodStep_runWeeks (opts : ScheduleOptions) (s : SchedState) :
    GoodStep opts s (runWeeks opts s) := by
  unfold runWeeks
  cases weekStarts opts with
  | nil => exact GoodStep_refl opts s
  | cons w ws =>
    refine GoodStep_trans (GoodStep_processWeek opts s w) ?_
    refine foldl_rel_mem (GoodStep opts) (GoodStep_refl opts)
      (fun h1 h2 => GoodStep_trans h1 h2) _ ws (fun s w _ => ?_) _
    exact GoodStep_trans (GoodStep_of_eq (rotateApprentices_assign opts s))
      (GoodStep_processWeek opts _ w)

theorem initState_assign (opts : ScheduleOptions) :
    (initState opts).assignments = opts.existingAssignments := rfl

theorem schedule_assign_eq (opts : ScheduleOptions) :
    (schedule opts).assignments = (runWeeks opts (initState opts)).assignments := rfl

theorem GoodStep_schedule (opts : ScheduleOptions) :
    ∃ k, (schedule opts).assignments = opts.existingAssignments ++ k ∧
      (∀ x ∈ k, x.locked = false ∧ AvailWitness opts x) ∧
      (NoDoubleBooking opts opts.existingAssignments →
        NoDoubleBooking opts (schedule opts).assignments) := by
  obtain ⟨⟨k, hk, hp⟩, hnd⟩ := GoodStep_runWeeks opts (initState opts)
  rw [initState_assign] at hk hnd
  rw [schedule_assign_eq]
  exact ⟨k, hk, hp, hnd⟩

/-! ## Idempotence of the follow-up pass -/

/-- `l'` extends `l` by appending. -/
def extL (l l' : List ShiftAssignment) : Prop := ∃ k, l' = l ++ k

theorem extL_refl (l : List ShiftAssignment) : extL l l := ⟨[], by simp⟩

theorem extL_trans {a b c : List ShiftAssignment} (h1 : extL a b)
    (h2 : extL b c) : extL a c := by
  obtain ⟨k1, rfl⟩ := h1
  obtain ⟨k2, rfl⟩ := h2
  exact ⟨k1 ++ k2, by simp⟩

theorem extL_any_mono {l l' : List ShiftAssignment}
    {p : ShiftAssignment → Bool} (h : extL l l') (ha : l.any p = true) :
    l'.any p = true := by
  obtain ⟨k, rfl⟩ := h
  rw [List.any_append, ha]
  simp

theorem extL_hasPrimaryOn_mono {l l' : List ShiftAssignment} {eid : String}
    {d : Nat} (h : extL l l') (ha : hasPrimaryOn l eid d = true) :
    hasPrimaryOn l' eid d = true :=
  extL_any_mono h ha

theorem extL_countOn_mono {l l' : List ShiftAssignment} {ts : ShiftType}
    {fd : Nat} (h : extL l l') : countOn l ts fd ≤ countOn l' ts fd := by
  obtain ⟨k, rfl⟩ := h
  unfold countOn
  rw [List.filter_append, List.length_append]
  exact Nat.le_add_right _ _

theorem mfuStep_extL (opts : ScheduleOptions) (e : Employee) (d : Nat)
    (st : ShiftType) (s : SchedState) (r : ShiftRule) :
    extL s.assignments (mfuStep opts e d st s r).assignments := by
  rcases mfuStep_cases opts e d st s r with h | ⟨ts, fd, _, h⟩
  · rw [h]; exact extL_refl _
  · exact ⟨_, h⟩

theorem foldl_mfu_extL (opts : ScheduleOptions) (e : Employee) (d : Nat)
    (st : ShiftType) :
    ∀ (rs : List ShiftRule) (s : SchedState),
      extL s.assignments ((rs.foldl (mfuStep opts e d st) s).assignments) := by
  intro rs
  induction rs with
  | nil => intro s; exact extL_refl _
  | cons r rs ih =>
    intro s
    simp only [List.foldl_cons]
    exact extL_trans (mfuStep_extL opts e d st s r) (ih _)

/-- Once a rule's body has run at state `s`, re-running it at any later state
(its assignments extend the post-run assignments) appends nothing. -/
theorem mfuStep_stable (opts : ScheduleOptions) (e : Employee) (d : Nat)
    (st : ShiftType) (s t : SchedState) (r : ShiftRule)
    (h : extL (mfuStep opts e d st s r).assignments t.assignments) :
    (mfuStep opts e d st t r).assignments = t.assignments := by
  have hst : extL s.assignments t.assignments :=
    extL_trans (mfuStep_extL opts e d st s r) h
  unfold mfuStep
  cases hdec : mfuDecide opts e d st t.assignments r with
  | skip => rfl
  | conflict c => rfl
  | blocked => rfl
  | push ts fd =>
    exfalso
    obtain ⟨_, hallow, havail, hprim_t, hany_t, hcap_t, hfd⟩ :=
      mfuDecide_push_elim hdec
    obtain ⟨hcongr, _⟩ := mfuDecide_push_structure hdec
    have hdec_s : mfuDecide opts e d st s.assignments r =
        mfuDecideAt opts e (if r.sameDay then d else d + 1) ts s.assignments :=
      hcongr s.assignments
    rw [← hfd] at hdec_s
    rcases mfuDecideAt_trichotomy opts e fd ts s.assignments hallow havail with
      hpush | hprim | hany | hcap
    · -- the first run pushed: the pushed record blocks the re-run
      have hpushed : (mfuStep opts e d st s r).assignments =
          s.assignments ++ [{ employeeId := e.id, shiftId := ts.id, date := fd,
                              locked := false, isFollowUp := true }] := by
        unfold mfuStep
        rw [hdec_s, hpush]
        rfl
      have hmem : (⟨e.id, ts.id, fd, false, true⟩ : ShiftAssignment) ∈ t.assignments := by
        obtain ⟨k, hk⟩ := h
        rw [hk, hpushed]
        simp
      have : t.assignments.any (fun a => a.employeeId == e.id &&
          decide (a.date = fd) && a.shiftId == ts.id) = true := by
        rw [List.any_eq_true]
        exact ⟨_, hmem, by simp⟩
      rw [hany_t] at this
      exact Bool.false_ne_true this
    · rw [extL_hasPrimaryOn_mono hst hprim] at hprim_t
      exact absurd hprim_t (by simp)
    · rw [extL_any_mono hst hany] at hany_t
      exact absurd hany_t (by simp)
    · exact absurd (le_trans hcap (extL_countOn_mono hst)) (not_le.2 hcap_t)

theorem applyMFU_foldl_stable (opts : ScheduleOptions) (e : Employee) (d : Nat)
    (st : ShiftType) :
    ∀ (rs : List ShiftRule) (s t : SchedState),
      extL ((rs.foldl (mfuStep opts e d st) s).assignments) t.assignments →
      ((rs.foldl (mfuStep opts e d st) t).assignments) = t.assignments := by
  intro rs
  induction rs with
  | nil => intro s t _; rfl
  | cons r rs ih =>
    intro s t h
    have hs1 : extL ((mfuStep opts e d st s r).assignments)
        ((rs.foldl (mfuStep opts e d st) (mfuStep opts e d st s r)).assignments) :=
      foldl_mfu_extL opts e d st rs _
    have h1 : extL ((mfuStep opts e d st s r).assignments) t.assignments := by
      refine extL_trans hs1 ?_
      simpa only [List.foldl_cons] using h
    have h2 : (mfuStep opts e d st t r).assignments = t.assignments :=
      mfuStep_stable opts e d st s t r h1
    simp only [List.foldl_cons]
    have h3 := ih (mfuStep opts e d st s r) (mfuStep opts e d st t r)
      (by rw [h2]; simpa only [List.foldl_cons] using h)
    rw [h3, h2]

theorem applyMFU_idem (opts : ScheduleOptions) (e : Employee) (d : Nat)
    (st : ShiftType) (s : SchedState) :
    (applyMandatoryFollowUps opts e d st
      (applyMandatoryFollowUps opts e d st s)).assignments =
    (applyMandatoryFollowUps opts e d st s).assignments := by
  unfold applyMandatoryFollowUps
  exact applyMFU_foldl_stable opts e d st opts.shiftRules s _ (extL_refl _)

theorem any_false_elim {l : List ShiftAssignment} {p : ShiftAssignment → Bool}
    (h : l.any p = false) : ∀ a ∈ l, p a = false := by
  intro a ha
  cases hp : p a with
  | false => rfl
  | true =>
    have : l.any p = true := List.any_eq_true.2 ⟨a, ha, hp⟩
    rw [h] at this
    exact absurd this Bool.false_ne_true

theorem mfuStep_noFollowUpDup (opts : ScheduleOptions) (e : Employee) (d : Nat)
    (st : ShiftType) (s : SchedState) (r : ShiftRule)
    (h : NoFollowUpDup s.assignments) :
    NoFollowUpDup (mfuStep opts e d st s r).assignments := by
  rcases mfuStep_cases opts e d st s r with heq | ⟨ts, fd, hdec, heq⟩
  · rwa [heq]
  · obtain ⟨_, _, _, _, hany, _, _⟩ := mfuDecide_push_elim hdec
    rw [heq]
    unfold NoFollowUpDup at h ⊢
    rw [List.pairwise_append]
    refine ⟨h, List.pairwise_singleton _ _, ?_⟩
    intro a ha b hb
    rw [List.mem_singleton] at hb
    subst hb
    intro hafu _ hemp hdate hshift
    have := any_false_elim hany a ha
    rw [hemp, hdate, hshift] at this
    simp at this

theorem applyMFU_noFollowUpDup (opts : ScheduleOptions) (e : Employee)
    (d : Nat) (st : ShiftType) (s : SchedState)
    (h : NoFollowUpDup s.assignments) :
    NoFollowUpDup (applyMandatoryFollowUps opts e d st s).assignments := by
  unfold applyMandatoryFollowUps
  exact foldl_preserve_mem (fun s => NoFollowUpDup s.assignments) _
    opts.shiftRules (fun s r _ => mfuStep_noFollowUpDup opts e d st s r) s h

set_option maxHeartbeats 4000000 in
theorem availAmended_iff (opts : ScheduleOptions) (e : Employee) (d : Nat)
    (st : ShiftType) (h24 : st.startTime.h < 24) :
    isEmployeeAvailable opts e d st = true ↔
      isEmployeeAvailableAmended opts e d st := by
  unfold isEmployeeAvailable isEmployeeAvailableAmended
  by_cases habs : (opts.absences.any fun a =>
      a.employeeId == e.id && decide (a.startDate ≤ d) && decide (d ≤ a.endDate)) = true
  · have hex : ∃ ab ∈ opts.absences,
        ab.employeeId = e.id ∧ ab.startDate ≤ d ∧ d ≤ ab.endDate := by
      rw [List.any_eq_true] at habs
      obtain ⟨a, ha, hp⟩ := habs
      simp only [Bool.and_eq_true, beq_iff_eq, decide_eq_true_eq] at hp
      exact ⟨a, ha, hp.1.1, hp.1.2, hp.2⟩
    simp [habs, hex]
  · have hnex : ¬ ∃ ab ∈ opts.absences,
        ab.employeeId = e.id ∧ ab.startDate ≤ d ∧ d ≤ ab.endDate := by
      intro hex
      obtain ⟨a, ha, h1, h2, h3⟩ := hex
      exact habs (List.any_eq_true.2 ⟨a, ha, by simp [h1, h2, h3]⟩)
    rw [if_neg habs]
    cases hwd : getWeekdayName d with
    | none => simp [hnex]
    | some wd =>
      simp only [Option.isSome_some, Option.getD_some, hnex, not_false_iff, true_and]
      by_cases hsh : st.startTime.h < 12 <;>
        by_cases ham : availGet e (wd ++ "_AM") = true <;>
        by_cases heh : 12 ≤ st.endTime.h <;>
        by_cases hpm : availGet e (wd ++ "_PM") = true <;>
        by_cases hov : hmLt st.endTime st.startTime = true <;>
        by_cases heh12 : st.endTime.h < 12 <;>
        by_cases heh0 : 0 < st.endTime.h
      all_goals (
        have hsh24 : st.startTime.h < 24 := h24
        cases hnwd : getWeekdayName (d + 1) with
        | none =>
          simp_all
          try omega
        | some nwd =>
          by_cases hnam : availGet e (nwd ++ "_AM") = true <;>
            (simp_all; try omega))

/-! ## Claim theorems -/

/-- C1 (counterexample): a run of `schedule()` with no existing assignments
whose returned assignments contain a pair satisfying a `forbidden_sequence`
rule's trigger condition: the fallback `selectAnyCandidate` skips the rule
check, so the only employee gets `3A` on Monday and `3B` on Tuesday despite
the next-day forbidden sequence `3A → 3B`. -/
theorem c1_counterexample :
    forbiddenPairViolation c1Opts (schedule c1Opts).assignments ∧
    c1Opts.existingAssignments = [] := by
  constructor
  · decide
  · rfl

/-- C1 (amended): every employee returned by the ranked selection
(`selectCandidate`, hence any commit guarded by `canAssign`) passes the
forbidden-sequence check against the assignments at that moment; only the
unranked fallback path and follow-up propagation skip the check. -/
theorem c1_amended (opts : ScheduleOptions) (s : SchedState) (d : Nat)
    (st : ShiftType) (e : Employee) (s1 : SchedState)
    (h : selectCandidate opts s d st = (some e, s1)) :
    violatesForbiddenSequence opts s.assignments e d st = false :=
  (selectCandidate_some_elim opts h).2.2.2.2.2

/-- C1 (witness): a concrete ranked selection together with the
forbidden-sequence check it guarantees. -/
theorem c1_amended_witness :
    selectCandidate c1Opts (initState c1Opts) 8 shiftA3 =
      (some (mkEmp "e1" ["a", "b"]), initState c1Opts) ∧
    violatesForbiddenSequence c1Opts (initState c1Opts).assignments
      (mkEmp "e1" ["a", "b"]) 8 shiftA3 = false :=
  ⟨by decide, c1_amended c1Opts (initState c1Opts) 8 shiftA3
    (mkEmp "e1" ["a", "b"]) (initState c1Opts) (by decide)⟩

/-- C2: if the existing assignments satisfy the no-double-booking invariant
(at most one primary assignment per employee and date, except the designated
`"0."`/`"1. VM"` pair), then so do the assignments returned by `schedule()`:
every commit path checks for an existing primary assignment first. -/
theorem c2_no_double_booking (opts : ScheduleOptions)
    (h : NoDoubleBooking opts opts.existingAssignments) :
    NoDoubleBooking opts (schedule opts).assignments := by
  obtain ⟨k, hk, hp, hnd⟩ := GoodStep_schedule opts
  exact hnd h

/-- C2 (witness): a concrete run from one existing assignment. -/
theorem c2_witness :
    NoDoubleBooking c10Opts c10Opts.existingAssignments ∧
    NoDoubleBooking c10Opts (schedule c10Opts).assignments :=
  ⟨by decide, c2_no_double_booking c10Opts (by decide)⟩

/-- C3 (code bug): with two interchangeable employees and the `"1. VM"` /
`"0."` shifts each needed once on the same Monday, employee `e1` receives
`"1. VM"`, is allowed, available and rule-free for `"0."`, yet the `"0."`
slot goes to `e2` and the pairing conflict is recorded: the pairing branch
calls `canAssign`, whose already-primary test always rejects the `"1. VM"`
holder, so the intended same-person linkage can never fire. -/
theorem c3_pairing_bug :
    (schedule c3Opts).assignments.map (fun a => (a.employeeId, a.shiftId, a.date)) =
      [("e1", "v", 8), ("e2", "z", 8)] ∧
    ConflictMsg.zeroPairBlocked 8 ∈ (schedule c3Opts).conflicts ∧
    (mkEmp "e1" ["v", "z"]).allowedShifts.contains "z" = true ∧
    isEmployeeAvailable c3Opts (mkEmp "e1" ["v", "z"]) 8 shiftZ = true ∧
    c3Opts.shiftRules = [] := by
  refine ⟨by decide, by decide, by decide, by decide, rfl⟩

/-- C4: applying `applyMandatoryFollowUps` a second time with the same
(employee, date, shift) arguments adds no assignment at all, and one
application preserves the absence of duplicate follow-up records
per (employee, date, shift). -/
theorem c4_followUp_idempotent (opts : ScheduleOptions) (e : Employee)
    (d : Nat) (st : ShiftType) (s : SchedState) :
    (applyMandatoryFollowUps opts e d st
        (applyMandatoryFollowUps opts e d st s)).assignments =
      (applyMandatoryFollowUps opts e d st s).assignments ∧
    (NoFollowUpDup s.assignments →
      NoFollowUpDup (applyMandatoryFollowUps opts e d st s).assignments) :=
  ⟨applyMFU_idem opts e d st s, applyMFU_noFollowUpDup opts e d st s⟩

/-- C4 (witness): a next-day follow-up rule fires once and only once. -/
theorem c4_witness :
    NoFollowUpDup c4State.assignments ∧
    (applyMandatoryFollowUps c4Opts (mkEmp "e1" ["fa", "fb"]) 8 shiftFA
        (applyMandatoryFollowUps c4Opts (mkEmp "e1" ["fa", "fb"]) 8 shiftFA
          c4State)).assignments =
      (applyMandatoryFollowUps c4Opts (mkEmp "e1" ["fa", "fb"]) 8 shiftFA
        c4State).assignments ∧
    NoFollowUpDup (applyMandatoryFollowUps c4Opts (mkEmp "e1" ["fa", "fb"]) 8
      shiftFA c4State).assignments :=
  ⟨by decide,
   (c4_followUp_idempotent c4Opts (mkEmp "e1" ["fa", "fb"]) 8 shiftFA c4State).1,
   (c4_followUp_idempotent c4Opts (mkEmp "e1" ["fa", "fb"]) 8 shiftFA c4State).2
     (by decide)⟩

/-- C5 (counterexample): with demand 2 on a Monday and no employees, the run
produces 0 assignments and 1 conflict, so `totalAssignments +
unassignedShifts = 1` does not equal the 2 attempted demand units: a failed
slot loop stops at its first conflict (`break`) and abandons the remaining
demand. -/
theorem c5_counterexample :
    (schedule c5Opts).statistics.totalAssignments +
        (schedule c5Opts).statistics.unassignedShifts ≠ totalSlots c5Opts := by
  decide

/-- C5 (amended): the statistics actually report the length of the full
returned assignment list (existing and follow-up assignments included) and
the number of distinct conflict strings — not a per-demand-unit account. -/
theorem c5_statistics_amended (opts : ScheduleOptions) :
    (schedule opts).statistics.totalAssignments =
      (schedule opts).assignments.length ∧
    (schedule opts).statistics.unassignedShifts =
      (schedule opts).conflicts.length :=
  ⟨rfl, rfl⟩

/-- C6 (counterexample): an overnight shift 22:00–00:30 on a Monday with the
next morning's flag absent is accepted by `isEmployeeAvailable` (the code
exempts end hour 0), but the claimed characterisation (next-morning flag
required whenever the end hour falls before noon) rejects it. -/
theorem c6_counterexample :
    isEmployeeAvailable c6Opts c6Emp 8 shiftNight = true ∧
    ¬ isEmployeeAvailableSpec c6Opts c6Emp 8 shiftNight := by
  constructor
  · decide
  · decide

/-- C6 (amended): for valid times (start hour < 24), `isEmployeeAvailable`
returns true exactly when: no absence covers the date, the date is a
scheduling weekday, the AM flag holds when the shift starts before 12:00,
the PM flag holds when it ends at/after 12:00 or starts at/after 12:00, and
for an overnight shift whose end hour is at least 1 and before noon and
whose next day is a weekday, the next weekday's AM flag holds. -/
theorem c6_availability_characterisation (opts : ScheduleOptions)
    (e : Employee) (d : Nat) (st : ShiftType) (h24 : st.startTime.h < 24) :
    isEmployeeAvailable opts e d st = true ↔
      isEmployeeAvailableAmended opts e d st :=
  availAmended_iff opts e d st h24

/-- C6 (witness): the characterisation applied to the concrete night shift. -/
theorem c6_witness :
    shiftNight.startTime.h < 24 ∧
    (isEmployeeAvailable c6Opts c6Emp 8 shiftNight = true ↔
      isEmployeeAvailableAmended c6Opts c6Emp 8 shiftNight) :=
  ⟨by decide, c6_availability_characterisation c6Opts c6Emp 8 shiftNight (by decide)⟩

/-- C7: every assignment `schedule()` adds beyond the existing prefix was
availability-checked at commit time: there are an employee and a shift-type
with the recorded ids such that `isEmployeeAvailable` holds on the
assignment's date (availability depends only on per-run-constant data, so
commit-time truth is truth outright). -/
theorem c7_availability_respected (opts : ScheduleOptions)
    (a : ShiftAssignment)
    (h : a ∈ (schedule opts).assignments.drop opts.existingAssignments.length) :
    AvailWitness opts a := by
  obtain ⟨k, hk, hp, _⟩ := GoodStep_schedule opts
  rw [hk, List.drop_left] at h
  exact (hp a h).2

/-- C7 (witness): the newly created assignment of a concrete run. -/
theorem c7_witness :
    (⟨"e1", "a", 8, false, false⟩ : ShiftAssignment) ∈
      (schedule c10Opts).assignments.drop c10Opts.existingAssignments.length ∧
    AvailWitness c10Opts ⟨"e1", "a", 8, false, false⟩ :=
  ⟨by decide, c7_availability_respected c10Opts _ (by decide)⟩

/-- C8 (counterexample): with two cohort apprentices, `a1` ranks first by the
three-key comparator and passes all eligibility checks, yet `a2` is selected,
because apprentices above their cohort's minimum usage count are demoted
behind everyone else before the first-passer scan. -/
theorem c8_counterexample :
    (selectCandidate c8Opts c8State 8 shiftC8).1 = some (mkAzubi "a2") ∧
    claimCandidateFirst c8Opts c8State 8 shiftC8 = some (mkAzubi "a1") ∧
    mkAzubi "a1" ≠ mkAzubi "a2" := by
  refine ⟨by decide, by decide, by decide⟩

/-- C8 (amended): candidate selection sorts ascending by team fill-ratio
(zero-target teams last), then hours, then suitability descending, *then
moves multi-member-cohort apprentices whose usage count for this shift-type
exceeds the cohort minimum behind all other employees*, and picks the first
employee of that order passing `canAssign`. -/
theorem c8_selection_amended (opts : ScheduleOptions) (s : SchedState)
    (d : Nat) (st : ShiftType) :
    (selectCandidate opts s d st).1 =
      ((rankedEmployees opts s st).filter (isPreferred opts s st) ++
       (rankedEmployees opts s st).filter
         (fun e => !(isPreferred opts s st e))).find?
        (fun e => (canAssign opts s e d st).1) := by
  unfold selectCandidate
  dsimp only
  rw [List.partition_eq_filter_filter]
  have := selGo_fst_eq opts d st
    ((rankedEmployees opts s st).filter (isPreferred opts s st) ++
     (rankedEmployees opts s st).filter (not ∘ isPreferred opts s st)) s s rfl
  simp only [Function.comp] at this ⊢
  exact this

/-- C9 (counterexample): two catch-all shift-types supplied in
non-alphabetical order stay in input order in the last priority group. -/
theorem c9_counterexample :
    (getPriorityGroups c9Opts).getD 3 [] ≠
      alphaByName ((getPriorityGroups c9Opts).getD 3 []) := by
  decide

/-- C9 (amended): the priority groups are: shift-types whose trimmed name
starts with `3`/`4` (input order), then `2` (input order), then `0`/`1`
sorted with `"1. VM"` first and `"0."` last, then all remaining shift-types
*in input order* (not alphabetically). `schedule()` processes the groups in
this order within each week. -/
theorem c9_priority_groups (opts : ScheduleOptions) :
    getPriorityGroups opts =
      [opts.shiftTypes.filter p34, opts.shiftTypes.filter p2,
       stableSort lt01 (opts.shiftTypes.filter p01),
       opts.shiftTypes.filter pOther] :=
  getPriorityGroups_eq opts

/-- C10: `schedule()` never removes or modifies the assignments passed in:
the returned list starts with exactly `existingAssignments`, in order, and
every later element is newly created with `locked = false`. -/
theorem c10_frame (opts : ScheduleOptions) :
    (schedule opts).assignments.take opts.existingAssignments.length =
      opts.existingAssignments ∧
    ∀ a ∈ (schedule opts).assignments.drop opts.existingAssignments.length,
      a.locked = false := by
  obtain ⟨k, hk, hp, _⟩ := GoodStep_schedule opts
  constructor
  · rw [hk, List.take_left]
  · intro a ha
    rw [hk, List.drop_left] at ha
    exact (hp a ha).1

/-- C10 (witness): the concrete run keeps its existing assignment as the
prefix and adds only unlocked assignments. -/
theorem c10_witness :
    (schedule c10Opts).assignments.take c10Opts.existingAssignments.length =
      c10Opts.existingAssignments ∧
    (⟨"e1", "a", 8, false, false⟩ : ShiftAssignment).locked = false :=
  ⟨(c10_frame c10Opts).1, (c10_frame c10Opts).2 _ (by decide)⟩
